import Mathlib

/-!
# Script dispatch of the Open Vehicle Monitoring System (`main/ovms_script.cpp`)

A shallow embedding of `script_ovms`, `script_run`, `OvmsScripts::AllScripts`,
`OvmsScripts::EventScript` and `DukOvmsPrint`.

* C strings are `List Char` (the terminating NUL is left implicit).
* Every call that leaves the translation unit (`fopen`, `fclose`, `puts`, `printf`,
  the `BufferedShell` methods, `duk_eval_string_noresult`, `opendir`, ...) is recorded as an
  `Event`; a function yields an `Outcome`: the events it produced, in program order, the value
  of the global variables, and whether control came back to the caller.
* The evaluation `duk_eval_string_noresult` is an unprotected call on a heap made by
  `duk_create_heap_default`: when the script ends with an error, control does not come back to
  `script_ovms`, nor to any of its callers (`Outcome.fatal`).
* Build-time switches and constants coming from headers are fields of `Config`.
* The filesystem, the Duktape engine and the console singleton are fields of `World`.
-/

namespace OvmsScript

/-! ## Data model -/

/-- The NUL byte that terminates a C string. -/
def NUL : Char := Char.ofNat 0

/-- An `OvmsWriter*`: an identity and the answer of its `IsSecure()` method. -/
structure OvmsWriter where
  id : Nat
  IsSecure : Bool
deriving DecidableEq, Repr

/-- A `FILE*` freshly returned by `fopen(.., "r")`: an identity and the bytes of the file,
the read position being at the start. -/
structure FILE where
  fd : Nat
  data : List Char
deriving DecidableEq, Repr

/-- The state of the Duktape heap `m_dukctx` (kept abstract). -/
abbrev Heap := Nat

/-- What one `duk_eval_string_noresult` does, as far as this file can observe it: the values
`duk_to_string(ctx,0)` of the successive calls the script makes to the native `OvmsPrint`
(`none` for a NULL pointer), whether the evaluation then ended with an engine error (a syntax
error or an uncaught exception of the script), and the heap afterwards.  The call is
unprotected: with `failed = true` it does not return to the statement after it. -/
structure DukResult where
  prints : List (Option (List Char))
  failed : Bool
  heap : Heap

/-- Build-time configuration: the two `#ifdef` switches of `ovms_script.cpp` and the two
constants it takes from headers. -/
structure Config where
  CONFIG_OVMS_SC_JAVASCRIPT_DUKTAPE : Bool
  CONFIG_OMMS_DEV_SDCARDSCRIPTS : Bool
  _COMMAND_LINE_LEN : Nat
  COMMAND_RESULT_MINIMAL : Int

/-- The collaborators of the file: `fopen(path,"r")`, `opendir`/`readdir` (the names in the
order the filesystem reports them), the script engine and `ConsoleAsync::Instance()`. -/
structure World where
  fopen : List Char → Option FILE
  opendir : List Char → Option (List (List Char))
  duk_eval : Heap → List Char → DukResult
  ConsoleAsync_Instance : OvmsWriter

/-- The global variables: `duktapewriter` (line 47, initially NULL) and the engine heap. -/
structure Globals where
  duktapewriter : Option OvmsWriter
  m_dukctx : Heap
deriving DecidableEq, Repr

/-- Observable calls, in program order.  `script_ovms` marks the entry of `script_ovms` with
its six arguments; all other constructors are calls to functions defined elsewhere. -/
inductive Event where
  | script_ovms (print : Bool) (verbosity : Int) (writer : OvmsWriter) (spath : List Char)
      (sf : FILE) (secure : Bool)
  | fopen (path : List Char) (result : Option FILE)
  | fclose (sf : FILE)
  | puts (writer : OvmsWriter) (s : List Char)
  | printf_s (writer : OvmsWriter) (output : List Char)
  | duk_eval_string_noresult (script : List Char)
  | BufferedShell_new (print : Bool) (verbosity : Int)
  | SetSecure (secure : Bool)
  | ProcessChars (buf : List Char)
  | Output (writer : OvmsWriter)
  | BufferedShell_delete
  | opendir (path : List Char) (ok : Bool)
  | closedir (path : List Char)
  | ESP_LOGI (path : List Char)
deriving DecidableEq, Repr

/-- How a call ends.  `returned evs g`: control came back to the caller after the events `evs`,
with globals `g`.  `fatal evs g`: an evaluation ended with an engine error; the events until
then are `evs`, the globals at that point are `g`, and no statement after the evaluation is
executed, in `script_ovms` or in any caller. -/
inductive Outcome where
  | returned (evs : List Event) (g : Globals)
  | fatal (evs : List Event) (g : Globals)
deriving DecidableEq, Repr

/-- The events of an outcome. -/
def Outcome.evs : Outcome → List Event
  | Outcome.returned evs _ => evs
  | Outcome.fatal evs _ => evs

/-- The globals of an outcome. -/
def Outcome.globals : Outcome → Globals
  | Outcome.returned _ g => g
  | Outcome.fatal _ g => g

/-- Did the call end in an engine error instead of returning? -/
def Outcome.isFatal : Outcome → Bool
  | Outcome.returned _ _ => false
  | Outcome.fatal _ _ => true

/-- The outcome of a caller that produced the events `before` and then made a call that ended
with the given outcome, with nothing left to do after a return. -/
def Outcome.after (before : List Event) : Outcome → Outcome
  | Outcome.returned evs g => Outcome.returned (before ++ evs) g
  | Outcome.fatal evs g => Outcome.fatal (before ++ evs) g

/-! ## C library functions used by the file -/

/-- The C string held in a buffer: the bytes before the first NUL (what `strlen` measures). -/
def cstr (buf : List Char) : List Char :=
  buf.takeWhile (fun c => c != NUL)

/-- The call `rindex(s, c)`: the tail of `s` starting at the last occurrence of `c`, or NULL. -/
def rindex : List Char → Char → Option (List Char)
  | [], _ => none
  | a :: s, c =>
    match rindex s c with
    | some r => some r
    | none => if a = c then some (a :: s) else none

/-- The call `strcmp(a, b)`: the difference of the first pair of bytes that differ. -/
def strcmp : List Char → List Char → Int
  | [], [] => 0
  | [], b :: _ => 0 - (b.toNat : Int)
  | a :: _, [] => (a.toNat : Int)
  | a :: s, b :: t => if a = b then strcmp s t else (a.toNat : Int) - (b.toNat : Int)

/-- The bytes one `fgets` stores when it may store at most `k` of them: it stops after a
newline, at end of file, or when `k` bytes were stored.  Returns the bytes and the unread rest. -/
def fgets_take : Nat → List Char → List Char × List Char
  | 0, s => ([], s)
  | _ + 1, [] => ([], [])
  | k + 1, c :: s =>
    if c = '\n' then ([c], s)
    else ((c :: (fgets_take k s).1), (fgets_take k s).2)

/-- The call `fgets(buf, n, sf)` on a file whose unread bytes are `rest`: NULL at end of file
(and, as in newlib, for `n < 2`), otherwise the buffer contents and the bytes left unread. -/
def fgets (n : Nat) (rest : List Char) : Option (List Char × List Char) :=
  if n < 2 then none
  else if rest = [] then none
  else some (fgets_take (n - 1) rest)

/-! ## The functions of `ovms_script.cpp` -/

/-- The native `OvmsPrint` (lines 49-58): prints to `duktapewriter` unless it or the text is
NULL. -/
def DukOvmsPrint (duktapewriter : Option OvmsWriter) (output : Option (List Char)) :
    List Event :=
  match output, duktapewriter with
  | some out, some w => [Event.printf_s w out]
  | _, _ => []

/-- The test of line 65: `(ext != NULL) && (strcmp(ext,".js") == 0)` with
`ext = rindex(spath,'.')`. -/
def is_javascript (spath : List Char) : Bool :=
  match rindex spath '.' with
  | some ext => strcmp ext ".js".toList == 0
  | none => false

/-- The `while (fgets(...) != NULL) bs->ProcessChars(cmdline, strlen(cmdline));` loop of
lines 91-94 on the unread bytes `rest`; `fuel` bounds the number of iterations and `none`
means the bound was reached. -/
def script_ovms_loop (n : Nat) : Nat → List Char → Option (List Event)
  | 0, _ => none
  | fuel + 1, rest =>
    match fgets n rest with
    | none => some []
    | some (cmdline, rest1) =>
      match script_ovms_loop n fuel rest1 with
      | none => none
      | some evs => some (Event.ProcessChars (cstr cmdline) :: evs)

/-- The function `script_ovms` (lines 61-100).  In the engine branch the assignment
`duktapewriter = NULL` (line 78) and `fclose(sf)` (line 83) are reached only when the
evaluation of line 77 returns. -/
def script_ovms (cfg : Config) (w : World) (print : Bool) (verbosity : Int)
    (writer : OvmsWriter) (spath : List Char) (sf : FILE) (secure : Bool) (g : Globals) :
    Option Outcome :=
  let enter := Event.script_ovms print verbosity writer spath sf secure
  if is_javascript spath then
    if cfg.CONFIG_OVMS_SC_JAVASCRIPT_DUKTAPE then
      let script := sf.data ++ [NUL]
      let g1 : Globals := { g with duktapewriter := some writer }
      let r := w.duk_eval g1.m_dukctx (cstr script)
      let printed := (r.prints.map (DukOvmsPrint g1.duktapewriter)).flatten
      if r.failed then
        some (Outcome.fatal (enter :: Event.duk_eval_string_noresult (cstr script) :: printed)
          { duktapewriter := some writer, m_dukctx := r.heap })
      else
        some (Outcome.returned (enter :: Event.duk_eval_string_noresult (cstr script)
          :: printed ++ [Event.fclose sf]) { duktapewriter := none, m_dukctx := r.heap })
    else
      some (Outcome.returned [enter,
        Event.puts writer "Error: No javascript engine available".toList, Event.fclose sf] g)
  else
    match script_ovms_loop cfg._COMMAND_LINE_LEN (sf.data.length + 1) sf.data with
    | none => none
    | some fed =>
      some (Outcome.returned (enter :: Event.BufferedShell_new print verbosity
        :: (if secure then [Event.SetSecure true] else []) ++ fed
        ++ [Event.fclose sf, Event.Output writer, Event.BufferedShell_delete]) g)

/-- The path `"/sd/scripts/" + argv[0]` built at lines 116-117. -/
def sd_scripts (argv0 : List Char) : List Char := "/sd/scripts/".toList ++ argv0

/-- The path `"/store/scripts/" + argv[0]` built at lines 122-123. -/
def store_scripts (argv0 : List Char) : List Char := "/store/scripts/".toList ++ argv0

/-- The path `path + "/" + dp->d_name` built at lines 146-148. -/
def entry_path (path d_name : List Char) : List Char := path ++ "/".toList ++ d_name

/-- The path `"/sd/events/" + event` built at lines 166-167. -/
def sd_events (event : List Char) : List Char := "/sd/events/".toList ++ event

/-- The path `"/store/events/" + event` built at lines 171-172. -/
def store_events (event : List Char) : List Char := "/store/events/".toList ++ event

/-- The end of `script_run` (lines 127-133), reached with the events `opened` of the open
attempts, the last value of `path` and the last value of `sf`. -/
def script_run_tail (cfg : Config) (w : World) (verbosity : Int) (writer : OvmsWriter)
    (opened : List Event) (path : List Char) (sf : Option FILE) (g : Globals) :
    Option Outcome :=
  match sf with
  | none =>
    some (Outcome.returned (opened ++ [Event.puts writer "Error: Script not found".toList]) g)
  | some f =>
    match script_ovms cfg w (verbosity != cfg.COMMAND_RESULT_MINIMAL) verbosity writer
        path f writer.IsSecure g with
    | none => none
    | some o => some (o.after opened)

/-- The function `script_run` (lines 102-134); `argv0` is `argv[0]`. -/
def script_run (cfg : Config) (w : World) (verbosity : Int) (writer : OvmsWriter)
    (argv0 : List Char) (g : Globals) : Option Outcome :=
  if argv0.head? = some '/' then
    script_run_tail cfg w verbosity writer [Event.fopen argv0 (w.fopen argv0)]
      argv0 (w.fopen argv0) g
  else
    if cfg.CONFIG_OMMS_DEV_SDCARDSCRIPTS then
      match w.fopen (sd_scripts argv0) with
      | some f =>
        script_run_tail cfg w verbosity writer [Event.fopen (sd_scripts argv0) (some f)]
          (sd_scripts argv0) (some f) g
      | none =>
        script_run_tail cfg w verbosity writer
          [Event.fopen (sd_scripts argv0) none,
            Event.fopen (store_scripts argv0) (w.fopen (store_scripts argv0))]
          (store_scripts argv0) (w.fopen (store_scripts argv0)) g
    else
      script_run_tail cfg w verbosity writer
        [Event.fopen (store_scripts argv0) (w.fopen (store_scripts argv0))]
        (store_scripts argv0) (w.fopen (store_scripts argv0)) g

/-- The `while ((dp = readdir(dir)) != NULL)` loop of `AllScripts` (lines 144-156) over the
names still to be reported. -/
def AllScripts_loop (cfg : Config) (w : World) (path : List Char) :
    List (List Char) → Globals → Option Outcome
  | [], g => some (Outcome.returned [] g)
  | d_name :: rest, g =>
    let fpath := entry_path path d_name
    match w.fopen fpath with
    | some sf =>
      match script_ovms cfg w false cfg.COMMAND_RESULT_MINIMAL w.ConsoleAsync_Instance
          fpath sf true g with
      | none => none
      | some (Outcome.fatal evs g1) =>
        some (Outcome.fatal (Event.fopen fpath (some sf) :: Event.ESP_LOGI fpath :: evs) g1)
      | some (Outcome.returned evs g1) =>
        match AllScripts_loop cfg w path rest g1 with
        | none => none
        | some o => some (o.after (Event.fopen fpath (some sf) :: Event.ESP_LOGI fpath :: evs))
    | none =>
      match AllScripts_loop cfg w path rest g with
      | none => none
      | some o => some (o.after [Event.fopen fpath none])

/-- The method `OvmsScripts::AllScripts` (lines 136-159). -/
def AllScripts (cfg : Config) (w : World) (path : List Char) (g : Globals) :
    Option Outcome :=
  match w.opendir path with
  | some entries =>
    match AllScripts_loop cfg w path entries g with
    | none => none
    | some (Outcome.returned evs g1) =>
      some (Outcome.returned (Event.opendir path true :: evs ++ [Event.closedir path]) g1)
    | some (Outcome.fatal evs g1) => some (Outcome.fatal (Event.opendir path true :: evs) g1)
  | none => some (Outcome.returned [Event.opendir path false] g)

/-- The method `OvmsScripts::EventScript` (lines 161-174). -/
def EventScript (cfg : Config) (w : World) (event : List Char) (g : Globals) :
    Option Outcome :=
  if cfg.CONFIG_OMMS_DEV_SDCARDSCRIPTS then
    match AllScripts cfg w (sd_events event) g with
    | none => none
    | some (Outcome.fatal evs g1) => some (Outcome.fatal evs g1)
    | some (Outcome.returned evs g1) =>
      match AllScripts cfg w (store_events event) g1 with
      | none => none
      | some o => some (o.after evs)
  else
    AllScripts cfg w (store_events event) g

/-! ## Observations on a trace -/

/-- Is the event an entry of `script_ovms`? -/
def Event.isDispatch : Event → Bool
  | Event.script_ovms _ _ _ _ _ _ => true
  | _ => false

/-- Is the event an `fopen`? -/
def Event.isOpen : Event → Bool
  | Event.fopen _ _ => true
  | _ => false

/-- The entries of `script_ovms` in a trace, in order. -/
def dispatches (evs : List Event) : List Event := evs.filter Event.isDispatch

/-- The `fopen` calls of a trace, in order. -/
def opens (evs : List Event) : List Event := evs.filter Event.isOpen

/-- The buffers passed to `ProcessChars` in a trace, in order. -/
def fed : List Event → List (List Char)
  | [] => []
  | Event.ProcessChars buf :: evs => buf :: fed evs
  | _ :: evs => fed evs



/-! ## The resolver as the specification words it -/

/-- The storage tiers in declared order: the removable tier first, when it is compiled in, the
persistent tier always last. -/
def storage_tiers (cfg : Config) : List (List Char) :=
  (if cfg.CONFIG_OMMS_DEV_SDCARDSCRIPTS then ["/sd/scripts/".toList] else [])
    ++ ["/store/scripts/".toList]

/-- The resolver of the specification for a relative name: try `tier ++ name` for each tier in
order and stop at the first open that succeeds.  Returns the open attempts made and the resolved
script (its path and handle), if any. -/
def PathResolver_spec (fopen : List Char → Option FILE) (name : List Char) :
    List (List Char) → List Event × Option (List Char × FILE)
  | [] => ([], none)
  | tier :: tiers =>
    match fopen (tier ++ name) with
    | some sf => ([Event.fopen (tier ++ name) (some sf)], some (tier ++ name, sf))
    | none =>
      (Event.fopen (tier ++ name) none :: (PathResolver_spec fopen name tiers).1,
        (PathResolver_spec fopen name tiers).2)

/-! ## Concrete inputs -/

/-- A build with an 8-byte line buffer and `COMMAND_RESULT_MINIMAL = 0`. -/
def demo_cfg (duktape sdcard : Bool) : Config := ⟨duktape, sdcard, 8, 0⟩

/-- A command script whose first line is longer than the 8-byte buffer. -/
def demo_long : FILE := ⟨3, "0123456789\nok\n".toList⟩

/-- A command script of two short lines. -/
def demo_short : FILE := ⟨4, "lock\nok\n".toList⟩

/-- A scripting-language source. -/
def demo_js : FILE := ⟨5, "OvmsPrint(1)".toList⟩

/-- A scripting-language source that throws. -/
def demo_bad : FILE := ⟨6, "throw 1".toList⟩

/-- A filesystem with a few scripts, an event directory holding three files and one
subdirectory, and an engine whose every evaluation prints twice and then ends with an error
exactly when the source is `throw 1`. -/
def demo_world : World where
  fopen := fun p =>
    if p = "/store/scripts/a".toList then some demo_long
    else if p = "/abs/b.js".toList then some demo_js
    else if p = "/store/events/lock/one".toList then some demo_short
    else if p = "/store/events/lock/two.js".toList then some demo_js
    else if p = "/store/events/lock/three".toList then some demo_long
    else if p = "/abs/bad.js".toList then some demo_bad
    else none
  opendir := fun p =>
    if p = "/store/events/lock".toList
    then some ["one".toList, "sub".toList, "two.js".toList, "three".toList]
    else none
  duk_eval := fun h s =>
    ⟨[some "hi".toList, none], decide (s = "throw 1".toList), h + 1⟩
  ConsoleAsync_Instance := ⟨0, true⟩

/-- A non-secure sink. -/
def demo_writer : OvmsWriter := ⟨1, false⟩

/-- The globals at start-up: no sink installed. -/
def demo_globals : Globals := ⟨none, 0⟩

/-! ## Auxiliary facts about the C library model -/

theorem NUL_toNat : NUL.toNat = 0 := by decide

theorem toNat_ne_zero {a : Char} (h : a ≠ NUL) : a.toNat ≠ 0 := by
  intro h0
  apply h
  apply Char.ext
  apply UInt32.ext
  show a.toNat = NUL.toNat
  rw [h0, NUL_toNat]

theorem toNat_sub_ne_zero {a b : Char} (h : a ≠ b) : (a.toNat : Int) - (b.toNat : Int) ≠ 0 := by
  intro h0
  apply h
  apply Char.ext
  apply UInt32.ext
  show a.toNat = b.toNat
  omega

theorem strcmp_eq_zero_iff (a b : List Char) (ha : NUL ∉ a) (hb : NUL ∉ b) :
    strcmp a b = 0 ↔ a = b := by
  induction a generalizing b with
  | nil =>
    cases b with
    | nil => simp [strcmp]
    | cons y t =>
      have hy : y ≠ NUL := fun h => hb (by simp [h])
      have := toNat_ne_zero hy
      simp [strcmp]
      omega
  | cons x s ih =>
    cases b with
    | nil =>
      have hx : x ≠ NUL := fun h => ha (by simp [h])
      have := toNat_ne_zero hx
      simp [strcmp]
      omega
    | cons y t =>
      have hs : NUL ∉ s := fun h => ha (List.mem_cons_of_mem _ h)
      have ht : NUL ∉ t := fun h => hb (List.mem_cons_of_mem _ h)
      by_cases hxy : x = y
      · subst hxy
        simp [strcmp, ih t hs ht]
      · have := toNat_sub_ne_zero hxy
        simp [strcmp, hxy, this]

theorem rindex_suffix {p : List Char} {c : Char} {ext : List Char}
    (h : rindex p c = some ext) : ∃ q, p = q ++ ext := by
  induction p with
  | nil => simp [rindex] at h
  | cons a s ih =>
    simp only [rindex] at h
    cases hs : rindex s c with
    | some r =>
      rw [hs] at h
      simp at h
      obtain ⟨q, hq⟩ := ih (by rw [hs, h])
      exact ⟨a :: q, by simp [hq]⟩
    | none =>
      rw [hs] at h
      by_cases hac : a = c
      · simp [hac] at h
        exact ⟨[], by simp [← h, hac]⟩
      · simp [hac] at h

theorem rindex_append_of_some {r : List Char} {c : Char} {ext : List Char}
    (h : rindex r c = some ext) (q : List Char) : rindex (q ++ r) c = some ext := by
  induction q with
  | nil => simpa using h
  | cons a s ih => simp [rindex, ih]

theorem rindex_eq_none {p : List Char} {c : Char} (h : c ∉ p) : rindex p c = none := by
  induction p with
  | nil => rfl
  | cons a s ih =>
    have h1 : c ∉ s := fun hh => h (List.mem_cons_of_mem _ hh)
    have h2 : a ≠ c := fun hh => h (by simp [hh])
    simp [rindex, ih h1, h2]

theorem rindex_last {q ext : List Char} {c : Char} (h : c ∉ ext) :
    rindex (q ++ c :: ext) c = some (c :: ext) := by
  apply rindex_append_of_some
  simp [rindex, rindex_eq_none h]

theorem is_javascript_iff (p : List Char) (hp : NUL ∉ p) :
    is_javascript p = true ↔ ∃ q, p = q ++ ".js".toList := by
  constructor
  · intro h
    unfold is_javascript at h
    cases hr : rindex p '.' with
    | none => simp [hr] at h
    | some ext =>
      rw [hr] at h
      obtain ⟨q, hq⟩ := rindex_suffix hr
      have hext : NUL ∉ ext := fun hh => hp (by rw [hq]; exact List.mem_append_right _ hh)
      have h0 : strcmp ext ".js".toList = 0 := by simpa using h
      rw [strcmp_eq_zero_iff ext _ hext (by decide)] at h0
      exact ⟨q, by rw [hq, h0]⟩
  · rintro ⟨q, rfl⟩
    have : rindex (q ++ ".js".toList) '.' = some ".js".toList :=
      rindex_append_of_some (by decide) q
    unfold is_javascript
    rw [this]
    decide

/-! ## Auxiliary facts about the read loop -/

theorem fgets_take_append (k : Nat) (s : List Char) :
    (fgets_take k s).1 ++ (fgets_take k s).2 = s := by
  induction k generalizing s with
  | zero => simp [fgets_take]
  | succ k ih =>
    cases s with
    | nil => simp [fgets_take]
    | cons c s =>
      by_cases hc : c = '\n'
      · simp [fgets_take, hc]
      · simp [fgets_take, hc, ih s]

theorem fgets_take_length_le (k : Nat) (s : List Char) : (fgets_take k s).1.length ≤ k := by
  induction k generalizing s with
  | zero => simp [fgets_take]
  | succ k ih =>
    cases s with
    | nil => simp [fgets_take]
    | cons c s =>
      by_cases hc : c = '\n'
      · simp [fgets_take, hc]
      · simpa [fgets_take, hc] using ih s

theorem fgets_take_ne_nil (k : Nat) (c : Char) (s : List Char) :
    (fgets_take (k + 1) (c :: s)).1 ≠ [] := by
  by_cases hc : c = '\n'
  · simp [fgets_take, hc]
  · simp [fgets_take, hc]

theorem fgets_take_newline (k : Nat) (s : List Char) :
    '\n' ∉ (fgets_take k s).1.dropLast := by
  induction k generalizing s with
  | zero => simp [fgets_take]
  | succ k ih =>
    cases s with
    | nil => simp [fgets_take]
    | cons c s =>
      by_cases hc : c = '\n'
      · simp [fgets_take, hc]
      · simp only [fgets_take, hc, if_false]
        cases h1 : (fgets_take k s).1 with
        | nil => simp
        | cons d t =>
          have := ih s
          rw [h1] at this
          rw [List.dropLast_cons₂]
          intro hmem
          rcases List.mem_cons.1 hmem with h | h
          · exact hc h.symm
          · exact this h

theorem fgets_take_full (k : Nat) (s : List Char) (h : (fgets_take k s).2 ≠ []) :
    (fgets_take k s).1.getLast? = some '\n' ∨ (fgets_take k s).1.length = k := by
  induction k generalizing s with
  | zero => simp [fgets_take]
  | succ k ih =>
    cases s with
    | nil => simp [fgets_take] at h
    | cons c s =>
      by_cases hc : c = '\n'
      · simp [fgets_take, hc]
      · simp only [fgets_take, hc, if_false] at h ⊢
        rcases ih s h with h1 | h1
        · left
          cases h2 : (fgets_take k s).1 with
          | nil => rw [h2] at h1; simp at h1
          | cons d t => rw [h2] at h1; rw [List.getLast?_cons_cons]; exact h1
        · right
          simp [h1]

theorem fgets_take_line (k : Nat) (l rest : List Char) (hl : '\n' ∉ l) (hk : l.length + 1 ≤ k) :
    fgets_take k (l ++ '\n' :: rest) = (l ++ ['\n'], rest) := by
  induction l generalizing k with
  | nil =>
    obtain ⟨k, rfl⟩ : ∃ j, k = j + 1 := ⟨k - 1, by simp at hk; omega⟩
    simp [fgets_take]
  | cons c l ih =>
    obtain ⟨k, rfl⟩ : ∃ j, k = j + 1 := ⟨k - 1, by simp at hk; omega⟩
    have hc : c ≠ '\n' := fun h => hl (by simp [h])
    have hl1 : '\n' ∉ l := fun h => hl (List.mem_cons_of_mem _ h)
    have := ih k hl1 (by simp at hk; omega)
    simp [fgets_take, hc, this]

theorem cstr_of_not_mem {b : List Char} (h : NUL ∉ b) : cstr b = b := by
  unfold cstr
  rw [List.takeWhile_eq_self_iff]
  intro c hc
  have : c ≠ NUL := fun hh => h (hh ▸ hc)
  simpa using this

/-- The read loop always ends within `rest.length + 1` iterations; for a buffer of at least two
bytes the buffers it fills are the consecutive pieces of the file. -/
theorem script_ovms_loop_total (n : Nat) (fuel : Nat) (rest : List Char)
    (hfuel : rest.length < fuel) :
    ∃ bufs : List (List Char),
      script_ovms_loop n fuel rest = some (bufs.map (fun b => Event.ProcessChars (cstr b)))
      ∧ (2 ≤ n → bufs.flatten = rest
          ∧ (∀ b ∈ bufs, 1 ≤ b.length ∧ b.length ≤ n - 1 ∧ '\n' ∉ b.dropLast)
          ∧ ∀ b ∈ bufs.dropLast, b.getLast? = some '\n' ∨ b.length = n - 1) := by
  induction fuel generalizing rest with
  | zero => omega
  | succ fuel ih =>
    by_cases hn : n < 2
    · exact ⟨[], by simp [script_ovms_loop, fgets, hn], by omega⟩
    · cases rest with
      | nil => exact ⟨[], by simp [script_ovms_loop, fgets], by simp⟩
      | cons c s =>
        obtain ⟨k, hk⟩ : ∃ k, n - 1 = k + 1 := ⟨n - 2, by omega⟩
        have happ := fgets_take_append (n - 1) (c :: s)
        have hne : (fgets_take (n - 1) (c :: s)).1 ≠ [] := by
          rw [hk]; exact fgets_take_ne_nil k c s
        have hlen : (fgets_take (n - 1) (c :: s)).2.length < fuel := by
          have h1 := congrArg List.length happ
          rw [List.length_append] at h1
          have h2 : 0 < (fgets_take (n - 1) (c :: s)).1.length := List.length_pos.2 hne
          simp only [List.length_cons] at hfuel h1
          omega
        obtain ⟨bufs, hb, hprop⟩ := ih _ hlen
        refine ⟨(fgets_take (n - 1) (c :: s)).1 :: bufs, ?_, ?_⟩
        · simp [script_ovms_loop, fgets, hn, hb]
        · intro h2
          obtain ⟨hj, hall, hmax⟩ := hprop h2
          refine ⟨by simp [hj, happ], ?_, ?_⟩
          · intro b hbm
            rcases List.mem_cons.1 hbm with rfl | hbm
            · exact ⟨List.length_pos.2 hne, fgets_take_length_le _ _, fgets_take_newline _ _⟩
            · exact hall b hbm
          · intro b hbm
            cases bufs with
            | nil => simp at hbm
            | cons b1 bs =>
              rw [List.dropLast_cons₂] at hbm
              rcases List.mem_cons.1 hbm with rfl | hbm
              · apply fgets_take_full
                intro h0
                rw [h0] at hj
                have := (hall b1 (by simp)).1
                have hb1 : b1 = [] := by
                  have := congrArg List.length hj
                  simp at this
                  exact this.1
                simp [hb1] at this
              · exact hmax b hbm

/-- On a file that starts with lines that fit in the buffer, each iteration reads one of these
lines; the loop then goes on with what follows them. -/
theorem script_ovms_loop_lines (n : Nat) (lines : List (List Char)) (tl : List Char)
    (hfit : ∀ l ∈ lines, '\n' ∉ l ∧ l.length + 1 < n) (fuel : Nat) (evs : List Event)
    (htl : script_ovms_loop n fuel tl = some evs) :
    script_ovms_loop n (fuel + lines.length) ((lines.map (fun l => l ++ ['\n'])).flatten ++ tl)
      = some (lines.map (fun l => Event.ProcessChars (cstr (l ++ ['\n']))) ++ evs) := by
  induction lines with
  | nil => simpa using htl
  | cons l ls ih =>
    obtain ⟨hl, hlen⟩ := hfit l (by simp)
    have hn : ¬ n < 2 := by omega
    have hrec := ih (fun x hx => hfit x (List.mem_cons_of_mem _ hx))
    have htake := fgets_take_line (n - 1) l ((ls.map (fun l => l ++ ['\n'])).flatten ++ tl) hl
      (by omega)
    have hdata : ((l :: ls).map (fun l => l ++ ['\n'])).flatten ++ tl
        = l ++ '\n' :: ((ls.map (fun l => l ++ ['\n'])).flatten ++ tl) := by simp
    rw [hdata]
    have hnil : l ++ '\n' :: ((ls.map (fun l => l ++ ['\n'])).flatten ++ tl) ≠ [] := by simp
    have hfuel : fuel + (l :: ls).length = (fuel + ls.length) + 1 := by simp; omega
    rw [hfuel]
    simp only [script_ovms_loop, fgets, hn, hnil, if_false, htake, hrec, List.map_cons,
      List.cons_append]

theorem fgets_take_long (k : Nat) (l r : List Char) (hl : '\n' ∉ l) (hk : k ≤ l.length) :
    fgets_take k (l ++ r) = (l.take k, l.drop k ++ r) := by
  induction k generalizing l with
  | zero => simp [fgets_take]
  | succ k ih =>
    cases l with
    | nil => simp at hk
    | cons c l =>
      have hc : c ≠ '\n' := fun h => hl (by simp [h])
      have hl1 : '\n' ∉ l := fun h => hl (List.mem_cons_of_mem _ h)
      have := ih l hl1 (by simp at hk; omega)
      simp [fgets_take, hc, this]

theorem script_ovms_loop_fuel (n : Nat) (fuel fuel1 : Nat) (rest : List Char) (evs : List Event)
    (h : script_ovms_loop n fuel rest = some evs) (hle : fuel ≤ fuel1) :
    script_ovms_loop n fuel1 rest = some evs := by
  induction fuel generalizing fuel1 rest evs with
  | zero => simp [script_ovms_loop] at h
  | succ fuel ih =>
    obtain ⟨fuel1, rfl⟩ : ∃ j, fuel1 = j + 1 := ⟨fuel1 - 1, by omega⟩
    simp only [script_ovms_loop] at h ⊢
    cases hf : fgets n rest with
    | none => rw [hf] at h; simpa using h
    | some cr =>
      obtain ⟨cmdline, rest1⟩ := cr
      rw [hf] at h
      simp only at h ⊢
      cases hl : script_ovms_loop n fuel rest1 with
      | none => rw [hl] at h; simp at h
      | some evs1 =>
        rw [hl] at h
        rw [ih fuel1 rest1 evs1 hl (by omega)]
        exact h


/-! ## Outcomes -/

/-- The events of a caller's outcome. -/
@[simp]
theorem Outcome.evs_after (before : List Event) (o : Outcome) :
    (o.after before).evs = before ++ o.evs := by
  cases o <;> rfl

/-- The globals of a caller's outcome. -/
@[simp]
theorem Outcome.globals_after (before : List Event) (o : Outcome) :
    (o.after before).globals = o.globals := by
  cases o <;> rfl

/-- A caller returns exactly when the call it ends with returns. -/
@[simp]
theorem Outcome.isFatal_after (before : List Event) (o : Outcome) :
    (o.after before).isFatal = o.isFatal := by
  cases o <;> rfl

/-! ## The paths through `script_ovms` -/

/-- What the native print primitive sends to an installed sink. -/
theorem DukOvmsPrint_installed (writer : OvmsWriter) (prints : List (Option (List Char))) :
    (prints.map (DukOvmsPrint (some writer))).flatten
      = (prints.filterMap id).map (Event.printf_s writer) := by
  induction prints with
  | nil => rfl
  | cons o os ih =>
    cases o with
    | none => simpa [DukOvmsPrint] using ih
    | some out => simpa [DukOvmsPrint] using ih

/-- Path 1a: a `.js` file with the engine compiled in, when the evaluation returns. -/
theorem script_ovms_engine (cfg : Config) (w : World) (print : Bool) (verbosity : Int)
    (writer : OvmsWriter) (spath : List Char) (sf : FILE) (secure : Bool) (g : Globals)
    (hjs : is_javascript spath = true) (heng : cfg.CONFIG_OVMS_SC_JAVASCRIPT_DUKTAPE = true)
    (hok : (w.duk_eval g.m_dukctx (cstr (sf.data ++ [NUL]))).failed = false) :
    script_ovms cfg w print verbosity writer spath sf secure g
      = some (Outcome.returned (Event.script_ovms print verbosity writer spath sf secure
          :: Event.duk_eval_string_noresult (cstr (sf.data ++ [NUL]))
          :: ((w.duk_eval g.m_dukctx (cstr (sf.data ++ [NUL]))).prints.filterMap id).map
              (Event.printf_s writer)
          ++ [Event.fclose sf])
        { duktapewriter := none,
          m_dukctx := (w.duk_eval g.m_dukctx (cstr (sf.data ++ [NUL]))).heap }) := by
  simp [script_ovms, hjs, heng, hok, DukOvmsPrint_installed]

/-- Path 1b: a `.js` file with the engine compiled in, when the evaluation ends with an engine
error: lines 78 to 83 are not executed. -/
theorem script_ovms_engine_error (cfg : Config) (w : World) (print : Bool) (verbosity : Int)
    (writer : OvmsWriter) (spath : List Char) (sf : FILE) (secure : Bool) (g : Globals)
    (hjs : is_javascript spath = true) (heng : cfg.CONFIG_OVMS_SC_JAVASCRIPT_DUKTAPE = true)
    (hfail : (w.duk_eval g.m_dukctx (cstr (sf.data ++ [NUL]))).failed = true) :
    script_ovms cfg w print verbosity writer spath sf secure g
      = some (Outcome.fatal (Event.script_ovms print verbosity writer spath sf secure
          :: Event.duk_eval_string_noresult (cstr (sf.data ++ [NUL]))
          :: ((w.duk_eval g.m_dukctx (cstr (sf.data ++ [NUL]))).prints.filterMap id).map
              (Event.printf_s writer))
        { duktapewriter := some writer,
          m_dukctx := (w.duk_eval g.m_dukctx (cstr (sf.data ++ [NUL]))).heap }) := by
  simp [script_ovms, hjs, heng, hfail, DukOvmsPrint_installed]

/-- Path 2: a `.js` file with no engine compiled in. -/
theorem script_ovms_noengine (cfg : Config) (w : World) (print : Bool) (verbosity : Int)
    (writer : OvmsWriter) (spath : List Char) (sf : FILE) (secure : Bool) (g : Globals)
    (hjs : is_javascript spath = true) (heng : cfg.CONFIG_OVMS_SC_JAVASCRIPT_DUKTAPE = false) :
    script_ovms cfg w print verbosity writer spath sf secure g
      = some (Outcome.returned [Event.script_ovms print verbosity writer spath sf secure,
          Event.puts writer "Error: No javascript engine available".toList,
          Event.fclose sf] g) := by
  simp [script_ovms, hjs, heng]

/-- Path 3: a command script. -/
theorem script_ovms_command (cfg : Config) (w : World) (print : Bool) (verbosity : Int)
    (writer : OvmsWriter) (spath : List Char) (sf : FILE) (secure : Bool) (g : Globals)
    (hjs : is_javascript spath = false) :
    ∃ bufs : List (List Char),
      script_ovms cfg w print verbosity writer spath sf secure g
        = some (Outcome.returned (Event.script_ovms print verbosity writer spath sf secure
            :: Event.BufferedShell_new print verbosity
            :: (if secure then [Event.SetSecure true] else [])
            ++ bufs.map (fun b => Event.ProcessChars (cstr b))
            ++ [Event.fclose sf, Event.Output writer, Event.BufferedShell_delete]) g)
      ∧ (2 ≤ cfg._COMMAND_LINE_LEN → bufs.flatten = sf.data
          ∧ (∀ b ∈ bufs, 1 ≤ b.length ∧ b.length ≤ cfg._COMMAND_LINE_LEN - 1
              ∧ '\n' ∉ b.dropLast)
          ∧ ∀ b ∈ bufs.dropLast,
              b.getLast? = some '\n' ∨ b.length = cfg._COMMAND_LINE_LEN - 1) := by
  obtain ⟨bufs, hloop, hprop⟩ :=
    script_ovms_loop_total cfg._COMMAND_LINE_LEN (sf.data.length + 1) sf.data (by omega)
  exact ⟨bufs, by simp [script_ovms, hjs, hloop], hprop⟩

/-- Every call of `script_ovms` ends, by a return or by an engine error, and it ends by an
engine error exactly when a `.js` file is evaluated and the evaluation fails.  The trace starts
with the entry marker and holds no other dispatch and no open; a call that returns has closed
its handle exactly once. -/
theorem script_ovms_cases (cfg : Config) (w : World) (print : Bool) (verbosity : Int)
    (writer : OvmsWriter) (spath : List Char) (sf : FILE) (secure : Bool) (g : Globals) :
    ∃ o : Outcome,
      script_ovms cfg w print verbosity writer spath sf secure g = some o
      ∧ dispatches o.evs = [Event.script_ovms print verbosity writer spath sf secure]
      ∧ opens o.evs = []
      ∧ (o.isFatal = true ↔ is_javascript spath = true
          ∧ cfg.CONFIG_OVMS_SC_JAVASCRIPT_DUKTAPE = true
          ∧ (w.duk_eval g.m_dukctx (cstr (sf.data ++ [NUL]))).failed = true)
      ∧ (o.isFatal = false → o.evs.count (Event.fclose sf) = 1)
      ∧ (∀ f, Event.fclose f ∈ o.evs → f = sf)
      ∧ (∀ b, Event.SetSecure b ∈ o.evs → secure = true ∧ b = true)
      ∧ (∀ wr s, Event.puts wr s ∈ o.evs →
          wr = writer ∧ s = "Error: No javascript engine available".toList)
      ∧ (o.isFatal = false → g.duktapewriter = none → o.globals.duktapewriter = none) := by
  cases hjs : is_javascript spath with
  | true =>
    cases heng : cfg.CONFIG_OVMS_SC_JAVASCRIPT_DUKTAPE with
    | true =>
      cases hfail : (w.duk_eval g.m_dukctx (cstr (sf.data ++ [NUL]))).failed with
      | false =>
        refine ⟨_, script_ovms_engine cfg w print verbosity writer spath sf secure g hjs heng
          hfail, ?_, ?_, ?_, ?_, ?_, ?_, ?_, ?_⟩
        · simp [Outcome.evs, dispatches, List.filter_cons, Event.isDispatch,
            List.filter_eq_nil_iff]
        · simp [Outcome.evs, opens, List.filter_cons, Event.isOpen, List.filter_eq_nil_iff]
        · simp [Outcome.isFatal]
        · simp [Outcome.evs, List.count_cons, List.count_eq_zero]
        · simp [Outcome.evs]
        · simp [Outcome.evs]
        · simp [Outcome.evs]
        · simp [Outcome.globals]
      | true =>
        refine ⟨_, script_ovms_engine_error cfg w print verbosity writer spath sf secure g hjs
          heng hfail, ?_, ?_, ?_, ?_, ?_, ?_, ?_, ?_⟩
        · simp [Outcome.evs, dispatches, List.filter_cons, Event.isDispatch,
            List.filter_eq_nil_iff]
        · simp [Outcome.evs, opens, List.filter_cons, Event.isOpen, List.filter_eq_nil_iff]
        · simp [Outcome.isFatal]
        · simp [Outcome.isFatal]
        · simp [Outcome.evs]
        · simp [Outcome.evs]
        · simp [Outcome.evs]
        · simp [Outcome.isFatal]
    | false =>
      refine ⟨_, script_ovms_noengine cfg w print verbosity writer spath sf secure g hjs heng,
        ?_, ?_, ?_, ?_, ?_, ?_, ?_, ?_⟩
      · simp [Outcome.evs, dispatches, List.filter_cons, Event.isDispatch]
      · simp [Outcome.evs, opens, List.filter_cons, Event.isOpen]
      · simp [Outcome.isFatal]
      · simp [Outcome.evs, List.count_cons]
      · simp [Outcome.evs]
      · simp [Outcome.evs]
      · simp [Outcome.evs]
      · simp [Outcome.globals]
  | false =>
    obtain ⟨bufs, hrun, -⟩ :=
      script_ovms_command cfg w print verbosity writer spath sf secure g hjs
    refine ⟨_, hrun, ?_, ?_, ?_, ?_, ?_, ?_, ?_, ?_⟩
    · cases secure <;>
        simp [Outcome.evs, dispatches, List.filter_cons, Event.isDispatch,
          List.filter_eq_nil_iff]
    · cases secure <;>
        simp [Outcome.evs, opens, List.filter_cons, Event.isOpen, List.filter_eq_nil_iff]
    · simp [Outcome.isFatal]
    · cases secure <;> simp [Outcome.evs, List.count_cons, List.count_eq_zero]
    · cases secure <;> simp [Outcome.evs]
    · cases secure <;> simp [Outcome.evs]
    · cases secure <;> simp [Outcome.evs]
    · simp [Outcome.globals]

/-- What `script_ovms` guarantees about the outcome it yields. -/
theorem script_ovms_props (cfg : Config) (w : World) (print : Bool) (verbosity : Int)
    (writer : OvmsWriter) (spath : List Char) (sf : FILE) (secure : Bool) (g : Globals)
    (o : Outcome)
    (h : script_ovms cfg w print verbosity writer spath sf secure g = some o) :
    dispatches o.evs = [Event.script_ovms print verbosity writer spath sf secure]
      ∧ opens o.evs = []
      ∧ (o.isFatal = true ↔ is_javascript spath = true
          ∧ cfg.CONFIG_OVMS_SC_JAVASCRIPT_DUKTAPE = true
          ∧ (w.duk_eval g.m_dukctx (cstr (sf.data ++ [NUL]))).failed = true)
      ∧ (o.isFatal = false → o.evs.count (Event.fclose sf) = 1)
      ∧ (∀ f, Event.fclose f ∈ o.evs → f = sf)
      ∧ (∀ b, Event.SetSecure b ∈ o.evs → secure = true ∧ b = true)
      ∧ (∀ wr s, Event.puts wr s ∈ o.evs →
          wr = writer ∧ s = "Error: No javascript engine available".toList)
      ∧ (o.isFatal = false → g.duktapewriter = none → o.globals.duktapewriter = none) := by
  obtain ⟨o1, hrun, hprops⟩ :=
    script_ovms_cases cfg w print verbosity writer spath sf secure g
  rw [h] at hrun
  cases hrun
  exact hprops

/-! ## `script_run`, `AllScripts` and `EventScript` -/

/-- The open attempts of `script_run`: some failed attempts, then the attempt that decides.
The four cases are an absolute name, a relative name without the removable tier, a relative
name found on the removable tier, and a relative name not found there. -/
theorem script_run_shape (cfg : Config) (w : World) (verbosity : Int) (writer : OvmsWriter)
    (argv0 : List Char) (g : Globals) :
    ∃ (fails : List (List Char)) (path : List Char),
      script_run cfg w verbosity writer argv0 g
        = script_run_tail cfg w verbosity writer
            (fails.map (fun p => Event.fopen p none) ++ [Event.fopen path (w.fopen path)])
            path (w.fopen path) g
      ∧ (∀ p ∈ fails, w.fopen p = none)
      ∧ ((argv0.head? = some '/' ∧ fails = [] ∧ path = argv0)
        ∨ (argv0.head? ≠ some '/' ∧ cfg.CONFIG_OMMS_DEV_SDCARDSCRIPTS = false
            ∧ fails = [] ∧ path = store_scripts argv0)
        ∨ (argv0.head? ≠ some '/' ∧ cfg.CONFIG_OMMS_DEV_SDCARDSCRIPTS = true
            ∧ (∃ f, w.fopen (sd_scripts argv0) = some f)
            ∧ fails = [] ∧ path = sd_scripts argv0)
        ∨ (argv0.head? ≠ some '/' ∧ cfg.CONFIG_OMMS_DEV_SDCARDSCRIPTS = true
            ∧ w.fopen (sd_scripts argv0) = none
            ∧ fails = [sd_scripts argv0] ∧ path = store_scripts argv0)) := by
  unfold script_run
  by_cases habs : argv0.head? = some '/'
  · exact ⟨[], argv0, by simp [habs], by simp, Or.inl ⟨habs, rfl, rfl⟩⟩
  · cases hsd : cfg.CONFIG_OMMS_DEV_SDCARDSCRIPTS with
    | false =>
      exact ⟨[], store_scripts argv0, by simp [habs], by simp,
        Or.inr (Or.inl ⟨habs, rfl, rfl, rfl⟩)⟩
    | true =>
      cases hopen : w.fopen (sd_scripts argv0) with
      | some f =>
        refine ⟨[], sd_scripts argv0, ?_, by simp,
          Or.inr (Or.inr (Or.inl ⟨habs, rfl, ⟨f, rfl⟩, rfl, rfl⟩))⟩
        simp only [habs, if_false, if_true, hopen, List.map_nil, List.nil_append]
      | none =>
        refine ⟨[sd_scripts argv0], store_scripts argv0, ?_, ?_,
          Or.inr (Or.inr (Or.inr ⟨habs, rfl, rfl, rfl, rfl⟩))⟩
        · simp only [habs, if_false, if_true, hopen, List.map_cons, List.map_nil,
            List.cons_append, List.nil_append]
        · simpa using hopen

/-- The end of `script_run` when the last open failed. -/
theorem script_run_tail_none (cfg : Config) (w : World) (verbosity : Int) (writer : OvmsWriter)
    (opened : List Event) (path : List Char) (g : Globals) :
    script_run_tail cfg w verbosity writer opened path none g
      = some (Outcome.returned
          (opened ++ [Event.puts writer "Error: Script not found".toList]) g) := rfl

/-- The end of `script_run` when the last open succeeded: one call of `script_ovms`. -/
theorem script_run_tail_some (cfg : Config) (w : World) (verbosity : Int) (writer : OvmsWriter)
    (opened : List Event) (path : List Char) (f : FILE) (g : Globals) :
    ∃ o : Outcome,
      script_ovms cfg w (verbosity != cfg.COMMAND_RESULT_MINIMAL) verbosity writer path f
        writer.IsSecure g = some o
      ∧ script_run_tail cfg w verbosity writer opened path (some f) g
        = some (o.after opened) := by
  obtain ⟨o, hrun, -⟩ := script_ovms_cases cfg w
    (verbosity != cfg.COMMAND_RESULT_MINIMAL) verbosity writer path f writer.IsSecure g
  exact ⟨o, hrun, by simp [script_run_tail, hrun]⟩

theorem dispatches_append (a b : List Event) :
    dispatches (a ++ b) = dispatches a ++ dispatches b := by
  simp [dispatches]

theorem opens_append (a b : List Event) : opens (a ++ b) = opens a ++ opens b := by
  simp [opens]

theorem opens_attempts (fails : List (List Char)) (path : List Char) (r : Option FILE) :
    opens (fails.map (fun p => Event.fopen p none) ++ [Event.fopen path r])
      = fails.map (fun p => Event.fopen p none) ++ [Event.fopen path r] := by
  simp [opens, List.filter_eq_self, Event.isOpen]

theorem dispatches_attempts (fails : List (List Char)) (path : List Char) (r : Option FILE) :
    dispatches (fails.map (fun p => Event.fopen p none) ++ [Event.fopen path r]) = [] := by
  simp [dispatches, List.filter_eq_nil_iff, Event.isDispatch]

theorem not_mem_of_opens_nil {evs : List Event} (h : opens evs = []) (p : List Char)
    (r : Option FILE) : Event.fopen p r ∉ evs := by
  intro hmem
  have : Event.fopen p r ∈ opens evs := by
    simp [opens, List.mem_filter, hmem, Event.isOpen]
  rw [h] at this
  simp at this

/-- The function `script_run` always ends; its trace is the open attempts followed either by
the not-found message or by the trace of one call of `script_ovms`, and it returns whenever
that call does. -/
theorem script_run_cases (cfg : Config) (w : World) (verbosity : Int) (writer : OvmsWriter)
    (argv0 : List Char) (g : Globals) :
    ∃ (fails : List (List Char)) (path : List Char) (o : Outcome),
      script_run cfg w verbosity writer argv0 g
        = some (o.after (fails.map (fun p => Event.fopen p none)
            ++ [Event.fopen path (w.fopen path)]))
      ∧ (∀ p ∈ fails, w.fopen p = none)
      ∧ ((argv0.head? = some '/' ∧ fails = [] ∧ path = argv0)
        ∨ (argv0.head? ≠ some '/' ∧ cfg.CONFIG_OMMS_DEV_SDCARDSCRIPTS = false
            ∧ fails = [] ∧ path = store_scripts argv0)
        ∨ (argv0.head? ≠ some '/' ∧ cfg.CONFIG_OMMS_DEV_SDCARDSCRIPTS = true
            ∧ (∃ f, w.fopen (sd_scripts argv0) = some f)
            ∧ fails = [] ∧ path = sd_scripts argv0)
        ∨ (argv0.head? ≠ some '/' ∧ cfg.CONFIG_OMMS_DEV_SDCARDSCRIPTS = true
            ∧ w.fopen (sd_scripts argv0) = none
            ∧ fails = [sd_scripts argv0] ∧ path = store_scripts argv0))
      ∧ opens o.evs = []
      ∧ dispatches o.evs = ((w.fopen path).map (fun f =>
          Event.script_ovms (verbosity != cfg.COMMAND_RESULT_MINIMAL) verbosity writer path f
            writer.IsSecure)).toList
      ∧ (o.isFatal = false → g.duktapewriter = none → o.globals.duktapewriter = none)
      ∧ (w.fopen path = none →
          o = Outcome.returned [Event.puts writer "Error: Script not found".toList] g)
      ∧ (∀ f, w.fopen path = some f →
          script_ovms cfg w (verbosity != cfg.COMMAND_RESULT_MINIMAL) verbosity writer path f
            writer.IsSecure g = some o) := by
  obtain ⟨fails, path, hshape, hfails, hkind⟩ :=
    script_run_shape cfg w verbosity writer argv0 g
  rcases Option.eq_none_or_eq_some (w.fopen path) with hopen | ⟨f, hopen⟩
  · refine ⟨fails, path, Outcome.returned [Event.puts writer "Error: Script not found".toList]
      g, ?_, hfails, hkind, rfl, ?_, fun _ h => h, ?_, ?_⟩
    · rw [hshape, hopen, script_run_tail_none]
      rfl
    · rw [hopen]; rfl
    · intro _; rfl
    · intro f hf
      rw [hopen] at hf
      cases hf
  · obtain ⟨o, hrun, htail⟩ := script_run_tail_some cfg w verbosity writer
      (fails.map (fun p => Event.fopen p none) ++ [Event.fopen path (some f)]) path f g
    obtain ⟨hd, ho, -, -, -, -, -, hg⟩ := script_ovms_props _ _ _ _ _ _ _ _ _ _ hrun
    refine ⟨fails, path, o, ?_, hfails, hkind, ho, ?_, hg, ?_, ?_⟩
    · rw [hshape, hopen, htail]
    · rw [hd, hopen]; rfl
    · intro hf
      rw [hopen] at hf
      cases hf
    · intro f1 hf1
      rw [hopen] at hf1
      cases hf1
      exact hrun

/-- The `readdir` loop ends for every listing.  The names are opened in listing order and each
successful open is followed by one call of `script_ovms`; the loop goes through the whole
listing unless an evaluation ends with an engine error, which ends the scan. -/
theorem AllScripts_loop_cases (cfg : Config) (w : World) (path : List Char)
    (entries : List (List Char)) (g : Globals) :
    ∃ o : Outcome,
      AllScripts_loop cfg w path entries g = some o
      ∧ dispatches o.evs <+: entries.filterMap (fun d =>
          (w.fopen (entry_path path d)).map (fun sf =>
            Event.script_ovms false cfg.COMMAND_RESULT_MINIMAL w.ConsoleAsync_Instance
              (entry_path path d) sf true))
      ∧ (o.isFatal = false →
          dispatches o.evs = entries.filterMap (fun d =>
            (w.fopen (entry_path path d)).map (fun sf =>
              Event.script_ovms false cfg.COMMAND_RESULT_MINIMAL w.ConsoleAsync_Instance
                (entry_path path d) sf true))
          ∧ opens o.evs = entries.map (fun d =>
            Event.fopen (entry_path path d) (w.fopen (entry_path path d))))
      ∧ (o.isFatal = false → g.duktapewriter = none → o.globals.duktapewriter = none)
      ∧ (o.isFatal = true → cfg.CONFIG_OVMS_SC_JAVASCRIPT_DUKTAPE = true
          ∧ ∃ d ∈ entries, ∃ sf h, w.fopen (entry_path path d) = some sf
              ∧ is_javascript (entry_path path d) = true
              ∧ (w.duk_eval h (cstr (sf.data ++ [NUL]))).failed = true) := by
  induction entries generalizing g with
  | nil =>
    exact ⟨Outcome.returned [] g, rfl, List.prefix_refl _, fun _ => ⟨rfl, rfl⟩, fun _ h => h,
      fun h => by cases h⟩
  | cons d rest ih =>
    rcases Option.eq_none_or_eq_some (w.fopen (entry_path path d)) with hopen | ⟨sf, hopen⟩
    · obtain ⟨o, hrest, hpre, hfull, hg, hnf⟩ := ih g
      refine ⟨o.after [Event.fopen (entry_path path d) none], ?_, ?_, ?_, ?_, ?_⟩
      · simp [AllScripts_loop, hopen, hrest]
      · simpa [dispatches, List.filter_cons, Event.isDispatch, hopen] using hpre
      · intro hf
        obtain ⟨h1, h2⟩ := hfull (by simpa using hf)
        constructor
        · simpa [dispatches, List.filter_cons, Event.isDispatch, hopen] using h1
        · simp only [Outcome.evs_after, opens_append, h2, List.map_cons, hopen]
          rfl
      · intro hf
        simpa using hg (by simpa using hf)
      · intro hf
        obtain ⟨h1, d1, hd1, h2⟩ := hnf (by simpa using hf)
        exact ⟨h1, d1, List.mem_cons_of_mem _ hd1, h2⟩
    · obtain ⟨o1, hrun, hd0, ho0, hfatal, -, -, -, -, hg0⟩ := script_ovms_cases cfg w false
        cfg.COMMAND_RESULT_MINIMAL w.ConsoleAsync_Instance (entry_path path d) sf true g
      cases o1 with
      | fatal evs g1 =>
        simp only [Outcome.evs] at hd0 ho0
        refine ⟨Outcome.fatal (Event.fopen (entry_path path d) (some sf)
          :: Event.ESP_LOGI (entry_path path d) :: evs) g1, ?_, ?_, ?_, ?_, ?_⟩
        · simp [AllScripts_loop, hopen, hrun]
        · have : dispatches (Event.fopen (entry_path path d) (some sf)
              :: Event.ESP_LOGI (entry_path path d) :: evs) = dispatches evs := by
            simp [dispatches, List.filter_cons, Event.isDispatch]
          simp only [Outcome.evs, this, hd0, List.filterMap_cons, hopen, Option.map_some']
          exact List.prefix_cons_inj _ |>.2 List.nil_prefix
        · intro hf
          cases hf
        · intro hf
          cases hf
        · intro _
          have hfail := (hfatal.1 rfl)
          exact ⟨hfail.2.1, d, List.mem_cons_self _ _, sf, g.m_dukctx, hopen, hfail.1,
            hfail.2.2⟩
      | returned evs g1 =>
        simp only [Outcome.evs, Outcome.globals] at hd0 ho0 hg0
        obtain ⟨o, hrest, hpre, hfull, hg, hnf⟩ := ih g1
        have hdis : dispatches (Event.fopen (entry_path path d) (some sf)
            :: Event.ESP_LOGI (entry_path path d) :: evs ++ o.evs)
            = Event.script_ovms false cfg.COMMAND_RESULT_MINIMAL w.ConsoleAsync_Instance
                (entry_path path d) sf true :: dispatches o.evs := by
          have : dispatches (Event.fopen (entry_path path d) (some sf)
              :: Event.ESP_LOGI (entry_path path d) :: evs ++ o.evs)
              = dispatches evs ++ dispatches o.evs := by
            rw [← dispatches_append]
            simp [dispatches, List.filter_cons, Event.isDispatch]
          rw [this, hd0]
          rfl
        have hop : opens (Event.fopen (entry_path path d) (some sf)
            :: Event.ESP_LOGI (entry_path path d) :: evs ++ o.evs)
            = Event.fopen (entry_path path d) (some sf) :: opens o.evs := by
          have : opens (Event.fopen (entry_path path d) (some sf)
              :: Event.ESP_LOGI (entry_path path d) :: evs ++ o.evs)
              = Event.fopen (entry_path path d) (some sf) :: (opens evs ++ opens o.evs) := by
            rw [← opens_append]
            simp [opens, List.filter_cons, Event.isOpen]
          rw [this, ho0]
          rfl
        refine ⟨o.after (Event.fopen (entry_path path d) (some sf)
          :: Event.ESP_LOGI (entry_path path d) :: evs), ?_, ?_, ?_, ?_, ?_⟩
        · simp [AllScripts_loop, hopen, hrun, hrest]
        · simp only [Outcome.evs_after, hdis, List.filterMap_cons, hopen,
            Option.map_some']
          exact List.prefix_cons_inj _ |>.2 hpre
        · intro hf
          obtain ⟨h1, h2⟩ := hfull (by simpa using hf)
          constructor
          · simp only [Outcome.evs_after, hdis, List.filterMap_cons, hopen,
              Option.map_some', h1]
          · simp only [Outcome.evs_after, hop, h2, List.map_cons, hopen]
        · intro hf hgn
          simpa using hg (by simpa using hf) (hg0 rfl hgn)
        · intro hf
          obtain ⟨h1, d1, hd1, h2⟩ := hnf (by simpa using hf)
          exact ⟨h1, d1, List.mem_cons_of_mem _ hd1, h2⟩

/-- The method `AllScripts` always ends; without a directory nothing is dispatched. -/
theorem AllScripts_cases (cfg : Config) (w : World) (path : List Char) (g : Globals) :
    ∃ o : Outcome,
      AllScripts cfg w path g = some o
      ∧ dispatches o.evs <+: ((w.opendir path).getD []).filterMap (fun d =>
          (w.fopen (entry_path path d)).map (fun sf =>
            Event.script_ovms false cfg.COMMAND_RESULT_MINIMAL w.ConsoleAsync_Instance
              (entry_path path d) sf true))
      ∧ (o.isFatal = false →
          dispatches o.evs = ((w.opendir path).getD []).filterMap (fun d =>
            (w.fopen (entry_path path d)).map (fun sf =>
              Event.script_ovms false cfg.COMMAND_RESULT_MINIMAL w.ConsoleAsync_Instance
                (entry_path path d) sf true))
          ∧ opens o.evs = ((w.opendir path).getD []).map (fun d =>
            Event.fopen (entry_path path d) (w.fopen (entry_path path d))))
      ∧ (o.isFatal = false → g.duktapewriter = none → o.globals.duktapewriter = none)
      ∧ (o.isFatal = true → cfg.CONFIG_OVMS_SC_JAVASCRIPT_DUKTAPE = true
          ∧ ∃ d ∈ (w.opendir path).getD [], ∃ sf h, w.fopen (entry_path path d) = some sf
              ∧ is_javascript (entry_path path d) = true
              ∧ (w.duk_eval h (cstr (sf.data ++ [NUL]))).failed = true) := by
  rcases Option.eq_none_or_eq_some (w.opendir path) with hdir | ⟨entries, hdir⟩
  · refine ⟨Outcome.returned [Event.opendir path false] g, by simp [AllScripts, hdir], ?_, ?_,
      fun _ h => h, fun h => by cases h⟩
    · rw [hdir]; exact List.prefix_refl _
    · intro _
      rw [hdir]
      exact ⟨rfl, rfl⟩
  · obtain ⟨o, hloop, hpre, hfull, hg, hnf⟩ := AllScripts_loop_cases cfg w path entries g
    rw [hdir]
    simp only [Option.getD_some]
    cases o with
    | returned evs g1 =>
      have hdis : dispatches (Event.opendir path true :: evs ++ [Event.closedir path])
          = dispatches evs := by
        simp [dispatches, List.filter_cons, Event.isDispatch]
      have hop : opens (Event.opendir path true :: evs ++ [Event.closedir path])
          = opens evs := by
        simp [opens, List.filter_cons, Event.isOpen]
      refine ⟨Outcome.returned (Event.opendir path true :: evs ++ [Event.closedir path]) g1,
        by simp [AllScripts, hdir, hloop], ?_, ?_, ?_, fun h => by cases h⟩
      · simp only [Outcome.evs, hdis]
        exact hpre
      · intro _
        obtain ⟨h1, h2⟩ := hfull rfl
        exact ⟨by simp only [Outcome.evs, hdis]; exact h1,
          by simp only [Outcome.evs, hop]; exact h2⟩
      · intro _ hgn
        exact hg rfl hgn
    | fatal evs g1 =>
      have hdis : dispatches (Event.opendir path true :: evs) = dispatches evs := by
        simp [dispatches, List.filter_cons, Event.isDispatch]
      refine ⟨Outcome.fatal (Event.opendir path true :: evs) g1,
        by simp [AllScripts, hdir, hloop], ?_, ?_, ?_, ?_⟩
      · simp only [Outcome.evs, hdis]
        exact hpre
      · intro hf
        cases hf
      · intro hf
        cases hf
      · intro _
        exact hnf rfl

/-- The form of the dispatches made for event scripts. -/
theorem AllScripts_dispatch_form (cfg : Config) (w : World) (path : List Char)
    (evs : List Event)
    (h : dispatches evs <+: ((w.opendir path).getD []).filterMap (fun d =>
          (w.fopen (entry_path path d)).map (fun sf =>
            Event.script_ovms false cfg.COMMAND_RESULT_MINIMAL w.ConsoleAsync_Instance
              (entry_path path d) sf true))) :
    ∀ e ∈ dispatches evs, ∃ p f, e = Event.script_ovms false cfg.COMMAND_RESULT_MINIMAL
      w.ConsoleAsync_Instance p f true := by
  intro e he
  have he1 := h.subset he
  rw [List.mem_filterMap] at he1
  obtain ⟨d, -, hd⟩ := he1
  rcases Option.eq_none_or_eq_some (w.fopen (entry_path path d)) with hopen | ⟨sf, hopen⟩
  · rw [hopen] at hd
    cases hd
  · rw [hopen] at hd
    simp only [Option.map_some', Option.some.injEq] at hd
    exact ⟨_, sf, hd.symm⟩

/-- The method `EventScript` always ends: the removable tier (when compiled in) is scanned
before the persistent one. -/
theorem EventScript_cases (cfg : Config) (w : World) (event : List Char) (g : Globals) :
    ∃ o : Outcome,
      EventScript cfg w event g = some o
      ∧ (∀ e ∈ dispatches o.evs, ∃ p f, e = Event.script_ovms false cfg.COMMAND_RESULT_MINIMAL
          w.ConsoleAsync_Instance p f true)
      ∧ (o.isFatal = false → g.duktapewriter = none → o.globals.duktapewriter = none)
      ∧ ((cfg.CONFIG_OVMS_SC_JAVASCRIPT_DUKTAPE = true →
            ∀ h s, (w.duk_eval h s).failed = false) → o.isFatal = false) := by
  have hnever : ∀ (path : List Char) (o : Outcome),
      (o.isFatal = true → cfg.CONFIG_OVMS_SC_JAVASCRIPT_DUKTAPE = true
          ∧ ∃ d ∈ (w.opendir path).getD [], ∃ sf h, w.fopen (entry_path path d) = some sf
              ∧ is_javascript (entry_path path d) = true
              ∧ (w.duk_eval h (cstr (sf.data ++ [NUL]))).failed = true) →
      (cfg.CONFIG_OVMS_SC_JAVASCRIPT_DUKTAPE = true →
            ∀ h s, (w.duk_eval h s).failed = false) → o.isFatal = false := by
    intro path o hfat hnf
    cases hf : o.isFatal with
    | false => rfl
    | true =>
      obtain ⟨heng, d, -, sf, h, -, -, hfail⟩ := hfat hf
      rw [hnf heng h _] at hfail
      cases hfail
  cases hsd : cfg.CONFIG_OMMS_DEV_SDCARDSCRIPTS with
  | false =>
    obtain ⟨o, hrun, hpre, -, hg, hfat⟩ := AllScripts_cases cfg w (store_events event) g
    exact ⟨o, by simp [EventScript, hsd, hrun],
      AllScripts_dispatch_form cfg w _ _ hpre, hg, hnever _ _ hfat⟩
  | true =>
    obtain ⟨o, hrun, hpre, -, hg, hfat⟩ := AllScripts_cases cfg w (sd_events event) g
    have hnf := hnever _ _ hfat
    cases o with
    | fatal evs g1 =>
      refine ⟨Outcome.fatal evs g1, by simp [EventScript, hsd, hrun],
        AllScripts_dispatch_form cfg w _ _ hpre, ?_, hnf⟩
      intro hf
      cases hf
    | returned evs g1 =>
      obtain ⟨o1, hrun1, hpre1, -, hg1, hfat1⟩ :=
        AllScripts_cases cfg w (store_events event) g1
      have hnf1 := hnever _ _ hfat1
      refine ⟨o1.after evs, by simp [EventScript, hsd, hrun, hrun1], ?_, ?_, ?_⟩
      · intro e he
        rw [Outcome.evs_after, dispatches_append, List.mem_append] at he
        rcases he with he | he
        · exact AllScripts_dispatch_form cfg w _ _ hpre e he
        · exact AllScripts_dispatch_form cfg w _ _ hpre1 e he
      · intro hf hgn
        simpa using hg1 (by simpa using hf) (hg rfl hgn)
      · intro h
        simpa using hnf1 h

/-! ## Observations on the traces of `script_ovms` -/

theorem fed_append (a b : List Event) : fed (a ++ b) = fed a ++ fed b := by
  induction a with
  | nil => rfl
  | cons e a ih => cases e <;> simp [fed, ih]

theorem fed_map {α : Type} (f : α → List Char) (xs : List α) :
    fed (xs.map (fun x => Event.ProcessChars (f x))) = xs.map f := by
  induction xs with
  | nil => rfl
  | cons x xs ih => simp [fed, ih]

theorem fed_ProcessChars (bufs : List (List Char)) :
    fed (bufs.map (fun b => Event.ProcessChars (cstr b))) = bufs.map cstr :=
  fed_map cstr bufs

/-- The `ProcessChars` buffers in the trace of a command script. -/
theorem fed_command (print : Bool) (verbosity : Int) (writer : OvmsWriter) (spath : List Char)
    (sf : FILE) (secure : Bool) (loop : List Event) :
    fed (Event.script_ovms print verbosity writer spath sf secure
      :: Event.BufferedShell_new print verbosity
      :: (if secure then [Event.SetSecure true] else []) ++ loop
      ++ [Event.fclose sf, Event.Output writer, Event.BufferedShell_delete]) = fed loop := by
  have : Event.script_ovms print verbosity writer spath sf secure
      :: Event.BufferedShell_new print verbosity
      :: (if secure then [Event.SetSecure true] else []) ++ loop
      ++ [Event.fclose sf, Event.Output writer, Event.BufferedShell_delete]
      = [Event.script_ovms print verbosity writer spath sf secure,
          Event.BufferedShell_new print verbosity]
        ++ ((if secure then [Event.SetSecure true] else []) ++ (loop
        ++ [Event.fclose sf, Event.Output writer, Event.BufferedShell_delete])) := by simp
  rw [this, fed_append, fed_append, fed_append]
  cases secure <;> simp [fed]

theorem is_javascript_of_suffix (q : List Char) : is_javascript (q ++ ".js".toList) = true := by
  have : rindex (q ++ ".js".toList) '.' = some ".js".toList :=
    rindex_append_of_some (by decide) q
  unfold is_javascript
  rw [this]
  decide


theorem map_cstr_of_not_mem (bufs : List (List Char)) (h : ∀ b ∈ bufs, NUL ∉ b) :
    bufs.map cstr = bufs := by
  induction bufs with
  | nil => rfl
  | cons b bs ih =>
    simp only [List.map_cons]
    rw [cstr_of_not_mem (h b (by simp)), ih (fun x hx => h x (List.mem_cons_of_mem _ hx))]

theorem lines_length_le (lines : List (List Char)) :
    lines.length ≤ ((lines.map (fun l => l ++ ['\n'])).flatten).length := by
  induction lines with
  | nil => simp
  | cons l ls ih =>
    simp only [List.map_cons, List.flatten_cons, List.length_append, List.length_cons,
      List.length_nil]
    omega

/-- The read loop on a file whose next physical line does not fit in the buffer: the first
buffer is the beginning of the line, and the following buffers hold exactly what was left. -/
theorem script_ovms_loop_long (n : Nat) (l r : List Char) (hn : 2 ≤ n) (hl : '\n' ∉ l)
    (hlong : n - 1 ≤ l.length) :
    ∃ bufs : List (List Char),
      script_ovms_loop n ((l.drop (n - 1) ++ r).length + 1 + 1) (l ++ r)
        = some ((l.take (n - 1) :: bufs).map (fun b => Event.ProcessChars (cstr b)))
      ∧ bufs.flatten = l.drop (n - 1) ++ r := by
  obtain ⟨bufs, hloop, hprop⟩ := script_ovms_loop_total n ((l.drop (n - 1) ++ r).length + 1)
    (l.drop (n - 1) ++ r) (by omega)
  refine ⟨bufs, ?_, (hprop hn).1⟩
  have hnil : l ++ r ≠ [] := by
    intro h
    have := congrArg List.length h
    rw [List.length_append, List.length_nil] at this
    omega
  have hn2 : ¬ n < 2 := by omega
  generalize (l.drop (n - 1) ++ r).length + 1 = k at hloop
  simp only [script_ovms_loop, fgets, hn2, hnil, if_false, fgets_take_long (n - 1) l r hl hlong,
    hloop, List.map_cons]

/-- The specification's resolver on the persistent tier alone. -/
theorem PathResolver_spec_store (fopen : List Char → Option FILE) (argv0 : List Char) :
    PathResolver_spec fopen argv0 ["/store/scripts/".toList]
      = ([Event.fopen (store_scripts argv0) (fopen (store_scripts argv0))],
          (fopen (store_scripts argv0)).map (fun f => (store_scripts argv0, f))) := by
  unfold store_scripts
  cases h : fopen ("/store/scripts/".toList ++ argv0) with
  | none => simp only [PathResolver_spec, h]; rfl
  | some f => simp only [PathResolver_spec, h]; rfl

/-- The specification's resolver on both tiers when the removable tier has the script. -/
theorem PathResolver_spec_sd_found (fopen : List Char → Option FILE) (argv0 : List Char)
    (f : FILE) (h : fopen (sd_scripts argv0) = some f) :
    PathResolver_spec fopen argv0 ["/sd/scripts/".toList, "/store/scripts/".toList]
      = ([Event.fopen (sd_scripts argv0) (some f)], some (sd_scripts argv0, f)) := by
  unfold sd_scripts at h ⊢
  simp only [PathResolver_spec, h]

theorem PathResolver_spec_cons_none (fopen : List Char → Option FILE) (name tier : List Char)
    (tiers : List (List Char)) (h : fopen (tier ++ name) = none) :
    PathResolver_spec fopen name (tier :: tiers)
      = (Event.fopen (tier ++ name) none :: (PathResolver_spec fopen name tiers).1,
          (PathResolver_spec fopen name tiers).2) := by
  simp only [PathResolver_spec, h]

/-- The specification's resolver on both tiers when the removable tier lacks the script. -/
theorem PathResolver_spec_sd_missing (fopen : List Char → Option FILE) (argv0 : List Char)
    (h : fopen (sd_scripts argv0) = none) :
    PathResolver_spec fopen argv0 ["/sd/scripts/".toList, "/store/scripts/".toList]
      = ([Event.fopen (sd_scripts argv0) none,
            Event.fopen (store_scripts argv0) (fopen (store_scripts argv0))],
          (fopen (store_scripts argv0)).map (fun f => (store_scripts argv0, f))) := by
  have hs := PathResolver_spec_store fopen argv0
  unfold sd_scripts at h ⊢
  rw [PathResolver_spec_cons_none fopen argv0 _ _ h, hs]

theorem length_filterMap_map {α β : Type} (f : α → Option FILE) (mk : α → FILE → β)
    (xs : List α) :
    (xs.filterMap (fun d => (f d).map (mk d))).length
      = (xs.filter (fun d => (f d).isSome)).length := by
  induction xs with
  | nil => rfl
  | cons x xs ih =>
    cases h : f x with
    | none => simp [List.filterMap_cons, List.filter_cons, h, ih]
    | some v => simp [List.filterMap_cons, List.filter_cons, h, ih]

theorem mem_attempts_iff (fails : List (List Char)) (path : List Char) (r0 : Option FILE)
    (evs : List Event) (ho : opens evs = []) (p : List Char) (r : Option FILE) :
    Event.fopen p r ∈ fails.map (fun q => Event.fopen q none) ++ [Event.fopen path r0] ++ evs
      ↔ (p ∈ fails ∧ r = none) ∨ (p = path ∧ r = r0) := by
  have hno := not_mem_of_opens_nil ho p r
  simp only [List.mem_append, List.mem_map, List.mem_singleton, Event.fopen.injEq]
  constructor
  · rintro ((⟨q, hq, h1, h2⟩ | h) | h)
    · left; exact ⟨h1 ▸ hq, h2.symm⟩
    · right; exact h
    · exact absurd h hno
  · rintro (⟨h1, h2⟩ | h)
    · left; left; exact ⟨p, h1, rfl, h2.symm⟩
    · left; right; exact h


/-! ## The claims -/

/-- C1: for every path string `p` (a C string, so without NUL), `script_ovms` takes the
scripting-language branch exactly when `p` ends with the three characters `.js`; the decision
is made on the text from the last `.` of `p` to its end, and a path without any `.` is a command
script.  The scripting-language branch is recognised in the trace by the evaluation or by the
no-engine message, the command-script branch by the creation of the `BufferedShell`.
`foo.js` is JavaScript; `foo.ovms`, `foo` and `foo.JS` are command scripts. -/
theorem C1_classification_by_suffix (cfg : Config) (w : World) (print : Bool) (verbosity : Int)
    (writer : OvmsWriter) (p : List Char) (sf : FILE) (secure : Bool) (g : Globals)
    (hp : NUL ∉ p) :
    (is_javascript p = true ↔ ∃ q, p = q ++ ".js".toList)
    ∧ (∀ q ext, p = q ++ '.' :: ext → '.' ∉ ext →
        (is_javascript p = true ↔ ext = "js".toList))
    ∧ ('.' ∉ p → is_javascript p = false)
    ∧ (∃ o : Outcome,
        script_ovms cfg w print verbosity writer p sf secure g = some o
        ∧ (((∃ s, Event.duk_eval_string_noresult s ∈ o.evs)
              ∨ Event.puts writer "Error: No javascript engine available".toList ∈ o.evs)
            ↔ ∃ q, p = q ++ ".js".toList)
        ∧ (Event.BufferedShell_new print verbosity ∈ o.evs ↔ ¬ ∃ q, p = q ++ ".js".toList))
    ∧ is_javascript "foo.js".toList = true
    ∧ is_javascript "foo.ovms".toList = false
    ∧ is_javascript "foo".toList = false
    ∧ is_javascript "foo.JS".toList = false := by
  have hiff := is_javascript_iff p hp
  refine ⟨hiff, ?_, ?_, ?_, by decide, by decide, by decide, by decide⟩
  · intro q ext hq hext
    have hr : rindex p '.' = some ('.' :: ext) := by rw [hq]; exact rindex_last hext
    have hnul : NUL ∉ '.' :: ext := fun h => hp (by rw [hq]; exact List.mem_append_right _ h)
    unfold is_javascript
    rw [hr]
    have h0 := strcmp_eq_zero_iff ('.' :: ext) ".js".toList hnul (by decide)
    constructor
    · intro h
      have h1 : strcmp ('.' :: ext) ".js".toList = 0 := by simpa using h
      have h2 := h0.1 h1
      simpa using h2
    · intro h
      have h1 : strcmp ('.' :: ext) ".js".toList = 0 := h0.2 (by rw [h]; rfl)
      simpa using h1
  · intro hdot
    unfold is_javascript
    rw [rindex_eq_none hdot]
  · cases hjs : is_javascript p with
    | true =>
      have hq := hiff.1 hjs
      cases heng : cfg.CONFIG_OVMS_SC_JAVASCRIPT_DUKTAPE with
      | true =>
        cases hfail : (w.duk_eval g.m_dukctx (cstr (sf.data ++ [NUL]))).failed with
        | false =>
          refine ⟨_, script_ovms_engine cfg w print verbosity writer p sf secure g hjs heng
            hfail, ?_, ?_⟩
          · simpa [Outcome.evs] using hq
          · simpa [Outcome.evs] using hq
        | true =>
          refine ⟨_, script_ovms_engine_error cfg w print verbosity writer p sf secure g hjs
            heng hfail, ?_, ?_⟩
          · simpa [Outcome.evs] using hq
          · simpa [Outcome.evs] using hq
      | false =>
        refine ⟨_, script_ovms_noengine cfg w print verbosity writer p sf secure g hjs heng,
          ?_, ?_⟩
        · simpa [Outcome.evs] using hq
        · simpa [Outcome.evs] using hq
    | false =>
      have hq : ¬ ∃ q, p = q ++ ".js".toList := by
        intro h
        rw [hiff.2 h] at hjs
        cases hjs
      obtain ⟨bufs, hrun, -⟩ := script_ovms_command cfg w print verbosity writer p sf secure g hjs
      refine ⟨_, hrun, ?_, ?_⟩
      · cases secure <;> simpa [Outcome.evs] using hq
      · cases secure <;> simpa [Outcome.evs] using hq

/-- Witness of C1 on the path `/abs/b.js`. -/
theorem C1_classification_by_suffix_witness :
    NUL ∉ "/abs/b.js".toList
    ∧ (is_javascript "/abs/b.js".toList = true ↔ ∃ q, "/abs/b.js".toList = q ++ ".js".toList) :=
  ⟨by decide,
    (C1_classification_by_suffix (demo_cfg true true) demo_world false 0 demo_writer
      "/abs/b.js".toList demo_js false demo_globals (by decide)).1⟩

/-- C3 (counterexample): with an 8-byte line buffer, the file `0123456789\nok\n` has a first
physical line longer than the buffer, and the remainder `789\n` of that line is passed to
`ProcessChars` by the second call, before the next physical line: the interpreter is not fed
the truncated line followed by the next line. -/
theorem C3_remainder_is_fed :
    ∃ (evs : List Event) (g1 : Globals),
      script_ovms (demo_cfg true true) demo_world true 1 demo_writer "/store/scripts/a".toList
        demo_long false demo_globals = some (Outcome.returned evs g1)
      ∧ fed evs = ["0123456".toList, "789\n".toList, "ok\n".toList]
      ∧ Event.ProcessChars "789\n".toList ∈ evs
      ∧ fed evs ≠ ["0123456".toList, "ok\n".toList] :=
  ⟨_, _, rfl, by decide, by decide, by decide⟩

/-- C3 (amended): a physical line of a command script that does not fit in the line buffer is
fed to the interpreter in consecutive pieces.  When the file (without NUL bytes) is made of
lines that fit, then a line beginning `l` with at least `_COMMAND_LINE_LEN - 1` characters
before its terminator, then `r`, the `ProcessChars` calls receive the fitting lines, then the
first `_COMMAND_LINE_LEN - 1` characters of `l`, then buffers whose concatenation is the
remainder of `l` followed by `r`.  The buffers concatenated are the whole file; each holds
between 1 and `_COMMAND_LINE_LEN - 1` characters with a newline at most at its end, and each
but the last either ends a line or is full. -/
theorem C3_long_line_fed_in_pieces (cfg : Config) (w : World) (print : Bool) (verbosity : Int)
    (writer : OvmsWriter) (spath : List Char) (sf : FILE) (secure : Bool) (g : Globals)
    (lines : List (List Char)) (l r : List Char)
    (hjs : is_javascript spath = false) (hn : 2 ≤ cfg._COMMAND_LINE_LEN)
    (hnul : NUL ∉ sf.data)
    (hdata : sf.data = (lines.map (fun x => x ++ ['\n'])).flatten ++ (l ++ r))
    (hfit : ∀ x ∈ lines, '\n' ∉ x ∧ x.length + 1 < cfg._COMMAND_LINE_LEN)
    (hl : '\n' ∉ l) (hlong : cfg._COMMAND_LINE_LEN - 1 ≤ l.length) :
    ∃ (evs : List Event) (g1 : Globals) (more : List (List Char)),
      script_ovms cfg w print verbosity writer spath sf secure g
        = some (Outcome.returned evs g1)
      ∧ fed evs = lines.map (fun x => x ++ ['\n'])
          ++ l.take (cfg._COMMAND_LINE_LEN - 1) :: more
      ∧ more.flatten = l.drop (cfg._COMMAND_LINE_LEN - 1) ++ r
      ∧ (fed evs).flatten = sf.data
      ∧ (∀ b ∈ fed evs, 1 ≤ b.length ∧ b.length ≤ cfg._COMMAND_LINE_LEN - 1
          ∧ '\n' ∉ b.dropLast)
      ∧ (∀ b ∈ (fed evs).dropLast,
          b.getLast? = some '\n' ∨ b.length = cfg._COMMAND_LINE_LEN - 1) := by
  obtain ⟨bufs, hrun, hprop⟩ :=
    script_ovms_command cfg w print verbosity writer spath sf secure g hjs
  obtain ⟨hflat, hall, hmax⟩ := hprop hn
  have hbufs : ∀ b ∈ bufs, NUL ∉ b := fun b hb hmem =>
    hnul (by rw [← hflat]; exact List.mem_flatten_of_mem hb hmem)
  have hfed : fed (Event.script_ovms print verbosity writer spath sf secure
      :: Event.BufferedShell_new print verbosity
      :: (if secure then [Event.SetSecure true] else [])
      ++ bufs.map (fun b => Event.ProcessChars (cstr b))
      ++ [Event.fclose sf, Event.Output writer, Event.BufferedShell_delete]) = bufs := by
    rw [fed_command, fed_ProcessChars, map_cstr_of_not_mem bufs hbufs]
  obtain ⟨more, hlong1, hmore⟩ := script_ovms_loop_long cfg._COMMAND_LINE_LEN l r hn hl hlong
  have hlines := script_ovms_loop_lines cfg._COMMAND_LINE_LEN lines (l ++ r) hfit _ _ hlong1
  have hlen : (l.drop (cfg._COMMAND_LINE_LEN - 1) ++ r).length + 1 + 1 + lines.length
      ≤ sf.data.length + 1 := by
    have h1 := lines_length_le lines
    rw [hdata]
    simp only [List.length_append, List.length_drop]
    omega
  have hloop := script_ovms_loop_fuel _ _ _ _ _ hlines hlen
  rw [← hdata] at hloop
  have hloop2 : script_ovms_loop cfg._COMMAND_LINE_LEN (sf.data.length + 1) sf.data
      = some (bufs.map (fun b => Event.ProcessChars (cstr b))) := by
    have h := hrun
    simp only [script_ovms, hjs] at h
    cases hc : script_ovms_loop cfg._COMMAND_LINE_LEN (sf.data.length + 1) sf.data with
    | none => rw [hc] at h; simp at h
    | some evs0 =>
      rw [hc] at h
      simp at h
      rw [h]
  rw [hloop2] at hloop
  have heq := congrArg (fun o => o.map fed) hloop
  simp only [Option.map_some', Option.some.injEq] at heq
  rw [fed_ProcessChars, map_cstr_of_not_mem bufs hbufs, fed_append] at heq
  have h1 : fed (lines.map (fun l => Event.ProcessChars (cstr (l ++ ['\n']))))
      = (lines.map (fun x => x ++ ['\n'])).map cstr := by
    rw [fed_map, List.map_map]
    rfl
  have h2 : fed ((l.take (cfg._COMMAND_LINE_LEN - 1) :: more).map
      (fun b => Event.ProcessChars (cstr b)))
      = (l.take (cfg._COMMAND_LINE_LEN - 1) :: more).map cstr := fed_ProcessChars _
  rw [h1, h2, ← List.map_append] at heq
  have hpieces : ∀ b ∈ lines.map (fun x => x ++ ['\n'])
      ++ l.take (cfg._COMMAND_LINE_LEN - 1) :: more, NUL ∉ b := by
    intro b hb hmem
    apply hnul
    rw [hdata]
    rcases List.mem_append.1 hb with hb | hb
    · exact List.mem_append_left _ (List.mem_flatten_of_mem hb hmem)
    · apply List.mem_append_right
      rcases List.mem_cons.1 hb with rfl | hb
      · exact List.mem_append_left _ (List.mem_of_mem_take hmem)
      · have : NUL ∈ more.flatten := List.mem_flatten_of_mem hb hmem
        rw [hmore] at this
        rcases List.mem_append.1 this with h | h
        · exact List.mem_append_left _ (List.mem_of_mem_drop h)
        · exact List.mem_append_right _ h
  rw [map_cstr_of_not_mem _ hpieces] at heq
  refine ⟨_, _, more, hrun, ?_, hmore, ?_, ?_, ?_⟩
  · rw [hfed, heq]
  · rw [hfed, hflat]
  · rw [hfed]; exact hall
  · rw [hfed]; exact hmax

/-- Witness of the amended C3: the 8-byte buffer and the file `0123456789\nok\n`. -/
theorem C3_long_line_fed_in_pieces_witness :
    ∃ (evs : List Event) (g1 : Globals) (more : List (List Char)),
      script_ovms (demo_cfg true true) demo_world true 1 demo_writer "/store/scripts/a".toList
        demo_long false demo_globals = some (Outcome.returned evs g1)
      ∧ fed evs = "0123456".toList :: more
      ∧ more.flatten = "789\nok\n".toList := by
  obtain ⟨evs, g1, more, hrun, hfed, hmore, -⟩ :=
    C3_long_line_fed_in_pieces (demo_cfg true true) demo_world true 1 demo_writer
      "/store/scripts/a".toList demo_long false demo_globals [] "0123456789".toList
      "\nok\n".toList (by decide) (by decide) (by decide) (by decide) (by decide) (by decide)
      (by decide)
  exact ⟨evs, g1, more, hrun, hfed, hmore⟩

/-- C4: a command-script file made of `N` lines, each of which fits with its terminator in the
line buffer (fewer than `_COMMAND_LINE_LEN` characters, no NUL byte; empty or not), makes
`script_ovms` call `ProcessChars` exactly `N` times, the k-th call with the k-th line and its
terminator, in file order; the handle is then closed and the output is delivered by exactly one
`Output(writer)` call, made after the last line was fed, whatever `print` is.  For `N = 0`
there is no `ProcessChars` call and still one `Output` call. -/
theorem C4_each_line_fed_once (cfg : Config) (w : World) (print : Bool) (verbosity : Int)
    (writer : OvmsWriter) (spath : List Char) (sf : FILE) (secure : Bool) (g : Globals)
    (lines : List (List Char))
    (hjs : is_javascript spath = false)
    (hdata : sf.data = (lines.map (fun l => l ++ ['\n'])).flatten)
    (hfit : ∀ l ∈ lines, '\n' ∉ l ∧ NUL ∉ l ∧ l.length + 1 < cfg._COMMAND_LINE_LEN) :
    ∃ (evs : List Event),
      script_ovms cfg w print verbosity writer spath sf secure g
        = some (Outcome.returned evs g)
      ∧ evs = Event.script_ovms print verbosity writer spath sf secure
          :: Event.BufferedShell_new print verbosity
          :: (if secure then [Event.SetSecure true] else [])
          ++ lines.map (fun l => Event.ProcessChars (l ++ ['\n']))
          ++ [Event.fclose sf, Event.Output writer, Event.BufferedShell_delete]
      ∧ fed evs = lines.map (fun l => l ++ ['\n'])
      ∧ (fed evs).length = lines.length
      ∧ evs.count (Event.Output writer) = 1
      ∧ (∀ wr, Event.Output wr ∈ evs → wr = writer) := by
  have h0 : script_ovms_loop cfg._COMMAND_LINE_LEN 1 [] = some [] := by
    by_cases hn : cfg._COMMAND_LINE_LEN < 2 <;> simp [script_ovms_loop, fgets, hn]
  have hlines := script_ovms_loop_lines cfg._COMMAND_LINE_LEN lines []
    (fun l hl => ⟨(hfit l hl).1, (hfit l hl).2.2⟩) 1 [] h0
  have hlen : 1 + lines.length ≤ sf.data.length + 1 := by
    have := lines_length_le lines
    rw [hdata]
    omega
  have hloop := script_ovms_loop_fuel _ _ _ _ _ hlines hlen
  simp only [List.append_nil] at hloop
  rw [← hdata] at hloop
  have hcstr : lines.map (fun l => Event.ProcessChars (cstr (l ++ ['\n'])))
      = lines.map (fun l => Event.ProcessChars (l ++ ['\n'])) := by
    apply List.map_congr_left
    intro l hl
    have hnul : NUL ∉ l ++ ['\n'] := by
      intro h
      rcases List.mem_append.1 h with h | h
      · exact (hfit l hl).2.1 h
      · revert h; decide
    rw [cstr_of_not_mem hnul]
  rw [hcstr] at hloop
  have hfed : fed (lines.map (fun l => Event.ProcessChars (l ++ ['\n'])))
      = lines.map (fun l => l ++ ['\n']) := fed_map _ lines
  refine ⟨_, by simp [script_ovms, hjs, hloop], rfl, ?_, ?_, ?_, ?_⟩
  · rw [fed_command, hfed]
  · rw [fed_command, hfed, List.length_map]
  · cases secure <;> simp [List.count_cons, List.count_eq_zero]
  · cases secure <;> simp

/-- Witness of C4: the two-line file `lock\nok\n` with the 8-byte buffer. -/
theorem C4_each_line_fed_once_witness :
    script_ovms (demo_cfg true true) demo_world false 0 demo_writer "/store/scripts/c".toList
        demo_short true demo_globals
      = some (Outcome.returned
          [Event.script_ovms false 0 demo_writer "/store/scripts/c".toList demo_short true,
            Event.BufferedShell_new false 0, Event.SetSecure true,
            Event.ProcessChars "lock\n".toList, Event.ProcessChars "ok\n".toList,
            Event.fclose demo_short, Event.Output demo_writer, Event.BufferedShell_delete]
          demo_globals) := by
  obtain ⟨evs, hrun, hevs, -⟩ := C4_each_line_fed_once (demo_cfg true true) demo_world false 0
    demo_writer "/store/scripts/c".toList demo_short true demo_globals
    ["lock".toList, "ok".toList] (by decide) (by decide) (by decide)
  rw [hrun, hevs]
  rfl

/-- C5: for every relative script name (first character not `/`), `script_run` makes the open
attempts of the specification's resolver on the tiers in declared order, the removable tier
`/sd/scripts/` (only when compiled in) and then the persistent tier `/store/scripts/`, each on
the tier prefix followed by the name; every attempt before the last one failed, so nothing is
opened after a success; and the one dispatch, if any, is on the path and the handle of the tier
whose open succeeded.  With both tiers and the file present only on the second, the opens are
one failure on the first tier followed by one success on the second. -/
theorem C5_tiers_in_declared_order (cfg : Config) (w : World) (verbosity : Int)
    (writer : OvmsWriter) (argv0 : List Char) (g : Globals) (hrel : argv0.head? ≠ some '/') :
    ∃ o : Outcome,
      script_run cfg w verbosity writer argv0 g = some o
      ∧ opens o.evs = (PathResolver_spec w.fopen argv0 (storage_tiers cfg)).1
      ∧ dispatches o.evs
        = ((PathResolver_spec w.fopen argv0 (storage_tiers cfg)).2.map (fun r =>
          Event.script_ovms (verbosity != cfg.COMMAND_RESULT_MINIMAL) verbosity writer r.1 r.2
            writer.IsSecure)).toList
      ∧ (∀ e ∈ (opens o.evs).dropLast, ∃ p, e = Event.fopen p none)
      ∧ (cfg.CONFIG_OMMS_DEV_SDCARDSCRIPTS = true → w.fopen (sd_scripts argv0) = none →
          ∀ f, w.fopen (store_scripts argv0) = some f →
            opens o.evs = [Event.fopen (sd_scripts argv0) none,
              Event.fopen (store_scripts argv0) (some f)]
            ∧ dispatches o.evs = [Event.script_ovms (verbosity != cfg.COMMAND_RESULT_MINIMAL)
                verbosity writer (store_scripts argv0) f writer.IsSecure])
      ∧ (cfg.CONFIG_OMMS_DEV_SDCARDSCRIPTS = true → ∀ f, w.fopen (sd_scripts argv0) = some f →
            opens o.evs = [Event.fopen (sd_scripts argv0) (some f)]
            ∧ dispatches o.evs = [Event.script_ovms (verbosity != cfg.COMMAND_RESULT_MINIMAL)
                verbosity writer (sd_scripts argv0) f writer.IsSecure])
      ∧ (cfg.CONFIG_OMMS_DEV_SDCARDSCRIPTS = false →
            opens o.evs
              = [Event.fopen (store_scripts argv0) (w.fopen (store_scripts argv0))]) := by
  obtain ⟨fails, path, o, hrun, hfails, hkind, ho, hd, -, -, -⟩ :=
    script_run_cases cfg w verbosity writer argv0 g
  have hopens : opens (o.after (fails.map (fun p => Event.fopen p none)
      ++ [Event.fopen path (w.fopen path)])).evs
      = fails.map (fun p => Event.fopen p none) ++ [Event.fopen path (w.fopen path)] := by
    rw [Outcome.evs_after, opens_append, opens_attempts, ho, List.append_nil]
  have hdisp : dispatches (o.after (fails.map (fun p => Event.fopen p none)
      ++ [Event.fopen path (w.fopen path)])).evs
      = ((w.fopen path).map (fun f =>
          Event.script_ovms (verbosity != cfg.COMMAND_RESULT_MINIMAL) verbosity writer path f
            writer.IsSecure)).toList := by
    rw [Outcome.evs_after, dispatches_append, dispatches_attempts, List.nil_append, hd]
  refine ⟨_, hrun, ?_, ?_, ?_, ?_, ?_, ?_⟩
  · rw [hopens]
    rcases hkind with ⟨habs, -⟩ | ⟨-, hsd, rfl, rfl⟩ | ⟨-, hsd, ⟨f, hf⟩, rfl, rfl⟩
      | ⟨-, hsd, hf, rfl, rfl⟩
    · exact absurd habs hrel
    · simp only [storage_tiers, hsd, Bool.false_eq_true, if_false, List.nil_append,
        PathResolver_spec_store]
      rfl
    · simp only [storage_tiers, hsd, if_true, List.singleton_append,
        PathResolver_spec_sd_found w.fopen argv0 f hf, hf]
      rfl
    · simp only [storage_tiers, hsd, if_true, List.singleton_append,
        PathResolver_spec_sd_missing w.fopen argv0 hf]
      rfl
  · rw [hdisp]
    rcases hkind with ⟨habs, -⟩ | ⟨-, hsd, rfl, rfl⟩ | ⟨-, hsd, ⟨f, hf⟩, rfl, rfl⟩
      | ⟨-, hsd, hf, rfl, rfl⟩
    · exact absurd habs hrel
    · simp only [storage_tiers, hsd, Bool.false_eq_true, if_false, List.nil_append,
        PathResolver_spec_store]
      cases w.fopen (store_scripts argv0) <;> rfl
    · simp only [storage_tiers, hsd, if_true, List.singleton_append,
        PathResolver_spec_sd_found w.fopen argv0 f hf, hf]
      rfl
    · simp only [storage_tiers, hsd, if_true, List.singleton_append,
        PathResolver_spec_sd_missing w.fopen argv0 hf]
      cases w.fopen (store_scripts argv0) <;> rfl
  · rw [hopens, List.dropLast_concat]
    intro e he
    obtain ⟨p, -, hp⟩ := List.mem_map.1 he
    exact ⟨p, hp.symm⟩
  · intro hsd1 hmiss f hf
    rw [hopens, hdisp]
    rcases hkind with ⟨habs, -⟩ | ⟨-, hsd, -⟩ | ⟨-, -, ⟨f1, hf1⟩, -⟩ | ⟨-, -, -, rfl, rfl⟩
    · exact absurd habs hrel
    · rw [hsd] at hsd1; cases hsd1
    · rw [hmiss] at hf1; cases hf1
    · rw [hf]
      exact ⟨rfl, rfl⟩
  · intro hsd1 f hf
    rw [hopens, hdisp]
    rcases hkind with ⟨habs, -⟩ | ⟨-, hsd, -⟩ | ⟨-, -, -, rfl, rfl⟩ | ⟨-, -, hf1, -⟩
    · exact absurd habs hrel
    · rw [hsd] at hsd1; cases hsd1
    · rw [hf]
      exact ⟨rfl, rfl⟩
    · rw [hf] at hf1; cases hf1
  · intro hsd0
    rw [hopens]
    rcases hkind with ⟨habs, -⟩ | ⟨-, -, rfl, rfl⟩ | ⟨-, hsd, -⟩ | ⟨-, hsd, -⟩
    · exact absurd habs hrel
    · rfl
    · rw [hsd] at hsd0; cases hsd0
    · rw [hsd] at hsd0; cases hsd0

/-- Witness of C5: the name `a` exists on the persistent tier only. -/
theorem C5_tiers_in_declared_order_witness :
    ∃ o : Outcome,
      script_run (demo_cfg true true) demo_world 1 demo_writer "a".toList demo_globals = some o
      ∧ opens o.evs = [Event.fopen "/sd/scripts/a".toList none,
          Event.fopen "/store/scripts/a".toList (some demo_long)]
      ∧ dispatches o.evs
        = [Event.script_ovms true 1 demo_writer "/store/scripts/a".toList demo_long false] := by
  obtain ⟨o, hrun, -, -, -, h, -⟩ := C5_tiers_in_declared_order (demo_cfg true true)
    demo_world 1 demo_writer "a".toList demo_globals (by decide)
  obtain ⟨h1, h2⟩ := h rfl (by decide) demo_long (by decide)
  exact ⟨o, hrun, h1, h2⟩

/-- C6: for every absolute script name (first character `/`), `script_run` makes exactly one
open attempt, on that very path, whether or not it succeeds; when it succeeds the one dispatch
is made with the input path itself and the handle just opened. -/
theorem C6_absolute_path_opened_alone (cfg : Config) (w : World) (verbosity : Int)
    (writer : OvmsWriter) (argv0 : List Char) (g : Globals) (habs : argv0.head? = some '/') :
    ∃ o : Outcome,
      script_run cfg w verbosity writer argv0 g = some o
      ∧ opens o.evs = [Event.fopen argv0 (w.fopen argv0)]
      ∧ dispatches o.evs = ((w.fopen argv0).map (fun f =>
          Event.script_ovms (verbosity != cfg.COMMAND_RESULT_MINIMAL) verbosity writer argv0 f
            writer.IsSecure)).toList := by
  obtain ⟨fails, path, o, hrun, hfails, hkind, ho, hd, -, -, -⟩ :=
    script_run_cases cfg w verbosity writer argv0 g
  rcases hkind with ⟨-, rfl, rfl⟩ | ⟨hrel, -⟩ | ⟨hrel, -⟩ | ⟨hrel, -⟩
  · refine ⟨_, hrun, ?_, ?_⟩
    · rw [Outcome.evs_after, opens_append, opens_attempts, ho]
      rfl
    · rw [Outcome.evs_after, dispatches_append, dispatches_attempts, List.nil_append, hd]
  · exact absurd habs hrel
  · exact absurd habs hrel
  · exact absurd habs hrel

/-- Witness of C6: the absolute path `/abs/b.js`. -/
theorem C6_absolute_path_opened_alone_witness :
    ∃ o : Outcome,
      script_run (demo_cfg true true) demo_world 1 demo_writer "/abs/b.js".toList demo_globals
        = some o
      ∧ opens o.evs = [Event.fopen "/abs/b.js".toList (some demo_js)]
      ∧ dispatches o.evs
        = [Event.script_ovms true 1 demo_writer "/abs/b.js".toList demo_js false] :=
  C6_absolute_path_opened_alone (demo_cfg true true) demo_world 1 demo_writer
    "/abs/b.js".toList demo_globals (by decide)

/-- C9: in a command-script execution with `secure = true`, `SetSecure(true)` is applied to the
new `BufferedShell` before the first `ProcessChars` call; with `secure = false` no `SetSecure`
call is made on any path of `script_ovms`.  Every dispatch of `script_run` passes the invoking
sink's own `IsSecure()` as the secure flag, and every dispatch of `EventScript` passes
`secure = true`. -/
theorem C9_secure_applied_before_first_line (cfg : Config) (w : World) (print : Bool)
    (verbosity : Int) (writer : OvmsWriter) (spath : List Char) (sf : FILE) (g : Globals)
    (argv0 event : List Char) :
    (is_javascript spath = false →
      ∃ bufs : List (List Char),
        script_ovms cfg w print verbosity writer spath sf true g
          = some (Outcome.returned (Event.script_ovms print verbosity writer spath sf true
              :: Event.BufferedShell_new print verbosity
              :: Event.SetSecure true
              :: bufs.map (fun b => Event.ProcessChars (cstr b))
              ++ [Event.fclose sf, Event.Output writer, Event.BufferedShell_delete]) g))
    ∧ (∃ o : Outcome,
        script_ovms cfg w print verbosity writer spath sf false g = some o
        ∧ ∀ b, Event.SetSecure b ∉ o.evs)
    ∧ (∃ o : Outcome,
        script_run cfg w verbosity writer argv0 g = some o
        ∧ ∀ e ∈ dispatches o.evs, ∃ p f,
            e = Event.script_ovms (verbosity != cfg.COMMAND_RESULT_MINIMAL) verbosity writer p f
              writer.IsSecure)
    ∧ (∃ o : Outcome,
        EventScript cfg w event g = some o
        ∧ ∀ e ∈ dispatches o.evs, ∃ p f,
            e = Event.script_ovms false cfg.COMMAND_RESULT_MINIMAL w.ConsoleAsync_Instance p f
              true) := by
  refine ⟨?_, ?_, ?_, ?_⟩
  · intro hjs
    obtain ⟨bufs, hrun, -⟩ := script_ovms_command cfg w print verbosity writer spath sf true g hjs
    exact ⟨bufs, by simpa using hrun⟩
  · obtain ⟨o, hrun, -, -, -, -, -, hsec, -⟩ :=
      script_ovms_cases cfg w print verbosity writer spath sf false g
    refine ⟨o, hrun, ?_⟩
    intro b hb
    have := (hsec b hb).1
    cases this
  · obtain ⟨fails, path, o, hrun, -, -, -, hd, -⟩ :=
      script_run_cases cfg w verbosity writer argv0 g
    refine ⟨_, hrun, ?_⟩
    intro e he
    rw [Outcome.evs_after, dispatches_append, dispatches_attempts, List.nil_append, hd] at he
    rcases Option.eq_none_or_eq_some (w.fopen path) with hopen | ⟨f, hopen⟩
    · rw [hopen] at he; simp at he
    · rw [hopen] at he
      simp only [Option.map_some', Option.toList_some, List.mem_singleton] at he
      exact ⟨path, f, he⟩
  · obtain ⟨o, hrun, hd, -⟩ := EventScript_cases cfg w event g
    exact ⟨o, hrun, hd⟩

/-- Witness of C9: the two-line command script run in secure mode. -/
theorem C9_secure_applied_before_first_line_witness :
    ∃ bufs : List (List Char),
      script_ovms (demo_cfg true true) demo_world false 0 demo_writer "/store/scripts/c".toList
          demo_short true demo_globals
        = some (Outcome.returned
            (Event.script_ovms false 0 demo_writer "/store/scripts/c".toList demo_short true
              :: Event.BufferedShell_new false 0
              :: Event.SetSecure true
              :: bufs.map (fun b => Event.ProcessChars (cstr b))
              ++ [Event.fclose demo_short, Event.Output demo_writer,
                Event.BufferedShell_delete])
            demo_globals) :=
  (C9_secure_applied_before_first_line (demo_cfg true true) demo_world false 0 demo_writer
    "/store/scripts/c".toList demo_short demo_globals [] []).1 (by decide)

end OvmsScript
